import Mathlib

/-!
# Visage graphics: region tree, layer damage state and canvas draw state

A shallow embedding of `visage_graphics/canvas.h` (classes `Layer`, `Region`,
`Canvas`) and of `debugAssert` from `visage_utils/posix/defines.cpp`.

* Objects that the C++ code reaches through pointers (`Region*`) live in a
  heap, a map from addresses to records; a null pointer is `none`.
* `int` values are unbounded integers.
* `float` values are rationals. Where a property depends on it, the arithmetic
  is that of the binary32 format (round to nearest, ties to even):
  `Canvas::setClampBounds` and `Canvas::segment` are modelled that way. The
  other drawing functions are kept in exact arithmetic: what is proved of
  them is which values they pass on, not how those values round.
* A member function that can trap, run into undefined behaviour, or recurse
  through the heap returns an `Exec` outcome.
-/

namespace visage

/-! ## Outcomes and assertions -/

/-- Outcome of a modelled call: it returned in state `s`, it was halted by a
failed assertion while the program was in state `s`, it executed an operation
with undefined behaviour, or the recursion budget of the model ran out. -/
inductive Exec (σ : Type) where
  | ok (s : σ)
  | assertFailed (s : σ)
  | undefinedBehaviour
  | outOfFuel

/-- Sequencing: the continuation runs only after a call that returned. -/
def Exec.bind {σ : Type} : Exec σ → (σ → Exec σ) → Exec σ
  | .ok s, k => k s
  | .assertFailed s, _ => .assertFailed s
  | .undefinedBehaviour, _ => .undefinedBehaviour
  | .outOfFuel, _ => .outOfFuel

/-- The state a call returned in, if it returned. -/
def Exec.returned {σ : Type} : Exec σ → Option σ
  | .ok s => some s
  | _ => none

/-- The state in which an assertion halted the program, if one did. -/
def Exec.trapped {σ : Type} : Exec σ → Option σ
  | .assertFailed s => some s
  | _ => none

/-- The function `debugAssert(condition, file, line)` of defines.cpp: returns when the
condition holds, otherwise logs "Assertion failed" and executes a trap
instruction, which halts the program where it stands. -/
def debugAssert {σ : Type} (condition : Bool) (s : σ) : Exec σ :=
  if condition then .ok s else .assertFailed s

/-- Modelled from the spec: the `VISAGE_ASSERT` preprocessor definition lives in
defines.h, which is not part of the sources at hand. Following section 7 of the
specification ("an assertion that halts execution in debug builds"), a debug
build hands the condition to `debugAssert`; any other build evaluates
nothing. -/
def VISAGE_ASSERT {σ : Type} (debug : Bool) (condition : Bool) (s : σ) : Exec σ :=
  if debug then debugAssert condition s else .ok s

/-! ## Value types declared outside the sources at hand -/

/-- Modelled from the spec: `Bounds` (visage_utils/space.h) is an integer
rectangle built as `Bounds(x, y, width, height)`. -/
structure Bounds where
  x : Int
  y : Int
  width : Int
  height : Int
deriving DecidableEq, Repr

/-- Modelled from the spec: `ClampBounds` (graphics_utils.h) is the clip
rectangle of the draw state, with the four `float` edges that canvas.h reads
and writes. -/
structure ClampBounds where
  left : ℚ := 0
  top : ℚ := 0
  right : ℚ := 0
  bottom : ℚ := 0
deriving DecidableEq

/-- Modelled from the spec: `QuadColor` (graphics_utils.h) is the colour value
of the draw state. canvas.h only copies it, builds it from an `unsigned int`
and value-initialises it with `{}`; the model keeps it as one number whose
value-initialised form is `0`. -/
structure QuadColor where
  value : Nat := 0
deriving DecidableEq, Repr

/-- Modelled from the spec: `BlendMode` (graphics_utils.h). canvas.h names
`Alpha`, the specification names `Additive`; every further enumerator is kept
by its numeric value. -/
inductive BlendMode where
  | Alpha
  | Additive
  | Other (value : Nat)
deriving DecidableEq, Repr

/-- Modelled from the spec: a resolved draw primitive as the shape batcher
(shape_batcher.h) receives it from `Canvas::addShape`: clip rectangle, colour,
absolute position and size, together with the blend mode it was submitted
with and a numeric tag for its primitive category. The constructor arguments
that follow position and size are kept in `args`, in order; `thickness` and
`pixel_width` hold a value when canvas.h assigns that member after
construction. -/
structure Shape where
  category : Nat
  blend_mode : BlendMode := BlendMode.Alpha
  clamp : ClampBounds
  color : QuadColor
  x : ℚ
  y : ℚ
  width : ℚ
  height : ℚ
  args : List ℚ := []
  thickness : Option ℚ := none
  pixel_width : Option ℚ := none
deriving DecidableEq

/-! ## Binary32 arithmetic

The C++ type `float` is the IEEE 754 binary32 format: 24 significant bits,
exponents from `-126` to `127`, results rounded to the nearest value with ties
going to the even significand. Expressions of type `float` are evaluated in
that format. -/

/-- Round to the nearest integer, a tie going to the even one. -/
def roundNearestEven (r : ℚ) : ℤ :=
  if r - ⌊r⌋ < 1 / 2 then ⌊r⌋
  else if 1 / 2 < r - ⌊r⌋ then ⌊r⌋ + 1
  else if ⌊r⌋ % 2 = 0 then ⌊r⌋ else ⌊r⌋ + 1

/-- The binary exponent that the binary32 format uses at `q`: the exponent of
the power of two at or below `|q|`, and `-126` in the subnormal range. -/
def floatExponent (q : ℚ) : ℤ :=
  max (Int.log 2 |q|) (-126)

/-- The distance between neighbouring binary32 values at `q`. -/
def floatSpacing (q : ℚ) : ℚ :=
  (2 : ℚ) ^ (floatExponent q - 23)

/-- The multiple of the spacing at `q` that is nearest to `q`, ties to even:
the binary32 value that `q` rounds to, as long as that value is in range. -/
def roundToFloat (q : ℚ) : ℚ :=
  roundNearestEven (q / floatSpacing q) * floatSpacing q

/-- Conversion of an `int` to `float`. An `int` is far below `2^128`, so the
result is finite. -/
def intToFloat (n : Int) : ℚ :=
  roundToFloat n

/-- A binary32 value: not a number, an infinity, a signed zero, or a finite
value other than zero. -/
inductive F32 where
  | nan
  | inf (negative : Bool)
  | zero (negative : Bool)
  | num (v : ℚ)
deriving DecidableEq, Repr

/-- The value of a finite float. -/
def F32.value : F32 → Option ℚ
  | .nan => none
  | .inf _ => none
  | .zero _ => some 0
  | .num v => some v

/-- The sign bit (clear for not-a-number). -/
def F32.negative : F32 → Bool
  | .nan => false
  | .inf s => s
  | .zero s => s
  | .num v => decide (v < 0)

/-- The float that an exact result `r` is rounded to: an infinity when the
rounded value is out of range, a zero with the sign of `r` on underflow;
`zeroNegative` is the sign that an exact zero gets. -/
def F32.round (r : ℚ) (zeroNegative : Bool) : F32 :=
  if r = 0 then .zero zeroNegative
  else if 2 ^ 128 ≤ |roundToFloat r| then .inf (decide (r < 0))
  else if roundToFloat r = 0 then .zero (decide (r < 0))
  else .num (roundToFloat r)

/-- Unary minus. -/
def F32.neg : F32 → F32
  | .nan => .nan
  | .inf s => .inf (!s)
  | .zero s => .zero (!s)
  | .num v => .num (-v)

/-- The sum `a + b`. An exact zero sum is negative only when both operands
are. -/
def F32.add (a b : F32) : F32 :=
  match a.value, b.value with
  | some va, some vb => F32.round (va + vb) (a.negative && b.negative)
  | _, _ =>
    match a, b with
    | .nan, _ => .nan
    | _, .nan => .nan
    | .inf s, .inf t => if s = t then .inf s else .nan
    | .inf s, _ => .inf s
    | _, .inf t => .inf t
    | _, _ => .nan

/-- The difference `a - b`. -/
def F32.sub (a b : F32) : F32 :=
  F32.add a (F32.neg b)

/-- The comparison `a < b`; false when an operand is not a number. -/
def F32.lt (a b : F32) : Bool :=
  match a, b with
  | .nan, _ => false
  | _, .nan => false
  | .inf s, .inf t => s && !t
  | .inf s, _ => s
  | _, .inf t => !t
  | _, _ =>
    match a.value, b.value with
    | some va, some vb => decide (va < vb)
    | _, _ => false

/-- The library function `std::min(a, b)`: `(b < a) ? b : a`. -/
def F32.min (a b : F32) : F32 :=
  if F32.lt b a then b else a

/-- The library function `std::max(a, b)`: `(a < b) ? b : a`. -/
def F32.max (a b : F32) : F32 :=
  if F32.lt a b then b else a

/-- Data members of `class Region`. `Canvas*` and `Region*` members are
addresses, `shape_batcher_` is kept as the sequence of primitives submitted
to it and `text_store_` as the sequence of stored text handles. -/
structure Region where
  x_ : Int := 0
  y_ : Int := 0
  width_ : Int := 0
  height_ : Int := 0
  palette_override_ : Int := 0
  visible_ : Bool := true
  layer_index_ : Int := 0
  canvas_ : Option Nat := none
  parent_ : Option Nat := none
  post_effect_ : Option Nat := none
  shape_batcher_ : List Shape := []
  text_store_ : List Nat := []
  sub_regions_ : List Nat := []
  intermediate_region_ : Option Nat := none
deriving DecidableEq

/-- Memory holding the `Region` objects, by address. -/
abbrev Heap := Nat → Region

/-- Store `v` at address `r`. -/
def Heap.set (h : Heap) (r : Nat) (v : Region) : Heap :=
  fun i => if i = r then v else h i

/-- The loop `for (auto& sub_region : sub_regions_) sub_region->setCanvas(canvas)`
for a given body `call`: the calls run in sequence order, each on the heap the
previous one returned. -/
def forEachSubRegion (call : Heap → Nat → Exec Heap) (subs : List Nat) (h : Heap) : Exec Heap :=
  subs.foldl (fun acc sub => acc.bind (fun h1 => call h1 sub)) (.ok h)

/-- Member function `Region::setCanvas(canvas)` on the region at address `self`. The first
argument bounds the depth of the recursion through `sub_regions_`. -/
def Region.setCanvas : Nat → Heap → Nat → Option Nat → Exec Heap
  | 0, _, _, _ => .outOfFuel
  | fuel + 1, h, self, canvas =>
    if (h self).canvas_ = canvas then .ok h
    else
      let h1 := h.set self { h self with canvas_ := canvas }
      forEachSubRegion (fun h2 sub => Region.setCanvas fuel h2 sub canvas)
        (h1 self).sub_regions_ h1

/-- Member function `Region::addRegion(region)` on the region at address `self`. -/
def Region.addRegion (debug : Bool) (fuel : Nat) (h : Heap) (self region : Nat) : Exec Heap :=
  (VISAGE_ASSERT debug (decide ((h region).parent_ = none)) h).bind fun h =>
    let h1 := h.set self { h self with sub_regions_ := (h self).sub_regions_ ++ [region] }
    let h2 := h1.set region { h1 region with parent_ := some self }
    match (h2 self).canvas_ with
    | some canvas => Region.setCanvas fuel h2 region (some canvas)
    | none => .ok h2

/-- Member function `Region::removeRegion(region)` on the region at address `self`.
`std::find` returns the first position holding `region`; `erase` of the end
iterator (no such position) is undefined behaviour. -/
def Region.removeRegion (fuel : Nat) (h : Heap) (self region : Nat) : Exec Heap :=
  let h1 := h.set region { h region with parent_ := none }
  (Region.setCanvas fuel h1 region none).bind fun h2 =>
    if region ∈ (h2 self).sub_regions_ then
      .ok (h2.set self { h2 self with sub_regions_ := (h2 self).sub_regions_.erase region })
    else .undefinedBehaviour

/-! ## Region geometry -/

/-- Modelled from the spec: `Region::invalidateRect(rect)` and
`Region::setupIntermediateRegion()` are declared in canvas.h and defined
outside the sources at hand. By the specification the first hands a rectangle
to the damage tracking of a layer and the second maintains the owned
intermediate region; neither writes the geometry members of the region. A
call of either is recorded, with its argument, in call order. -/
inductive RegionCall where
  | invalidateRect (rect : Bounds)
  | setupIntermediateRegion
deriving DecidableEq, Repr

/-- Member function `Region::invalidate()`: the `invalidateRect` call it issues, if any. -/
def Region.invalidate (r : Region) : List RegionCall :=
  if r.width_ > 0 ∧ r.height_ > 0 then [.invalidateRect ⟨0, 0, r.width_, r.height_⟩] else []

/-- Member function `Region::setBounds(x, y, width, height)`: the region
afterwards and the calls issued, in order. -/
def Region.setBounds (r : Region) (x y width height : Int) : Region × List RegionCall :=
  let before := r.invalidate
  let r1 := { r with x_ := x, y_ := y, width_ := width, height_ := height }
  (r1, before ++ [.setupIntermediateRegion] ++ r1.invalidate)

/-- The rectangles handed to `invalidateRect`, in call order. -/
def invalidatedRects : List RegionCall → List Bounds
  | [] => []
  | .invalidateRect rect :: rest => rect :: invalidatedRects rest
  | .setupIntermediateRegion :: rest => invalidatedRects rest

/-! ## Layer -/

/-- Modelled from the spec: `FrameBufferData` is declared outside the sources
at hand. The specification describes destroying the render target as setting
a flag, the real destruction and recreation being left to the next
`checkFrameBuffer`; the model keeps that flag. -/
structure FrameBufferData where
  destroyed : Bool := false
deriving DecidableEq, Repr

/-- Data members of `class Layer`. The packed atlas is left out: no function
modelled here reads or writes it. -/
structure Layer where
  bottom_left_origin_ : Bool := false
  hdr_ : Bool := false
  width_ : Int := 0
  height_ : Int := 0
  render_time_ : ℚ := 0
  intermediate_layer_ : Bool := false
  window_handle_ : Option Nat := none
  frame_buffer_data_ : FrameBufferData := {}
  regions_ : List Nat := []
  invalid_rects_ : List Bounds := []
  prev_invalid_rects_ : List (List Bounds) := [[], []]
  invalid_rect_pieces_ : List Bounds := []
deriving DecidableEq

/-- Modelled from the spec: `Layer::destroyFrameBuffer()` is declared `const`
in canvas.h and defined outside the sources at hand; it marks the render
target as destroyed and, being `const`, leaves every data member of the layer
itself as it is. -/
def Layer.destroyFrameBuffer (l : Layer) : Layer :=
  { l with frame_buffer_data_ := { l.frame_buffer_data_ with destroyed := true } }

/-- Member function `Layer::invalidate()`. -/
def Layer.invalidate (l : Layer) : Layer :=
  { l with invalid_rects_ := [⟨0, 0, l.width_, l.height_⟩] }

/-- Member function `Layer::setDimensions(width, height)`. -/
def Layer.setDimensions (l : Layer) (width height : Int) : Layer :=
  if width = l.width_ ∧ height = l.height_ then l
  else ({ l with width_ := width, height_ := height }).destroyFrameBuffer.invalidate

/-- Member function `Layer::setHdr(hdr)`. -/
def Layer.setHdr (l : Layer) (hdr : Bool) : Layer :=
  ({ l with hdr_ := hdr }).destroyFrameBuffer

/-- Member function `Layer::pairToWindow(window_handle, width, height)`. -/
def Layer.pairToWindow (l : Layer) (window_handle : Option Nat) (width height : Int) : Layer :=
  (({ l with window_handle_ := window_handle }).setDimensions width height).destroyFrameBuffer

/-- Member function `Layer::removeFromWindow()`. -/
def Layer.removeFromWindow (l : Layer) : Layer :=
  ({ l with window_handle_ := none }).destroyFrameBuffer

/-! ## Canvas draw state -/

/-- The struct `Canvas::State`. -/
structure State where
  x : Int := 0
  y : Int := 0
  palette_override : Int := 0
  color : QuadColor := {}
  clamp : ClampBounds := {}
  blend_mode : BlendMode := BlendMode.Alpha
  current_region : Option Nat := none
deriving DecidableEq

/-- The data members of `class Canvas` that the draw-state functions use:
the current state and the vector of saved states, oldest first. -/
structure Canvas where
  state_ : State := {}
  state_memory_ : List State := []
deriving DecidableEq

/-- Member function `Canvas::saveState()`. -/
def Canvas.saveState (c : Canvas) : Canvas :=
  { c with state_memory_ := c.state_memory_ ++ [c.state_] }

/-- Member function `Canvas::restoreState()`. The function carries no check: `back()` of an
empty vector is undefined behaviour. -/
def Canvas.restoreState (c : Canvas) : Exec Canvas :=
  match c.state_memory_.getLast? with
  | some saved => .ok { state_ := saved, state_memory_ := c.state_memory_.dropLast }
  | none => .undefinedBehaviour

/-- Member function `Canvas::setPosition(x, y)`. -/
def Canvas.setPosition (c : Canvas) (x y : Int) : Canvas :=
  { c with state_ := { c.state_ with x := c.state_.x + x, y := c.state_.y + y } }

/-- Member function `Canvas::setBlendMode(blend_mode)`. -/
def Canvas.setBlendMode (c : Canvas) (blend_mode : BlendMode) : Canvas :=
  { c with state_ := { c.state_ with blend_mode := blend_mode } }

/-- Member function `Canvas::setColor(color)`, for both overloads: the `unsigned int` one
converts its argument to a `QuadColor` first. -/
def Canvas.setColor (c : Canvas) (color : QuadColor) : Canvas :=
  { c with state_ := { c.state_ with color := color } }

/-- Member function `Canvas::setPaletteOverride(override_id)`. -/
def Canvas.setPaletteOverride (c : Canvas) (override_id : Int) : Canvas :=
  { c with state_ := { c.state_ with palette_override := override_id } }

/-- Member function `Canvas::setClampBounds(x, y, width, height)`. The sums
`state_.x + x` and `state_.y + y` are `int` sums converted to `float`; in
`left + width` and `top + height` the `int` is converted to `float` and the
sum is a `float` sum. -/
def Canvas.setClampBounds (debug : Bool) (c : Canvas) (x y width height : Int) : Exec Canvas :=
  (VISAGE_ASSERT debug (decide (width ≥ 0)) c).bind fun c =>
  (VISAGE_ASSERT debug (decide (height ≥ 0)) c).bind fun c =>
    let left : ℚ := intToFloat (c.state_.x + x)
    let top : ℚ := intToFloat (c.state_.y + y)
    .ok { c with state_ := { c.state_ with
      clamp := { left := left, top := top, right := roundToFloat (left + intToFloat width),
                 bottom := roundToFloat (top + intToFloat height) } } }

/-- Member function `Canvas::setClampBounds(bounds)`. -/
def Canvas.setClampBoundsTo (c : Canvas) (bounds : ClampBounds) : Canvas :=
  { c with state_ := { c.state_ with clamp := bounds } }

/-- Member function `Canvas::moveClampBounds(x_offset, y_offset)`. -/
def Canvas.moveClampBounds (c : Canvas) (x_offset y_offset : Int) : Canvas :=
  { c with state_ := { c.state_ with clamp :=
    { left := c.state_.clamp.left + x_offset, top := c.state_.clamp.top + y_offset,
      right := c.state_.clamp.right + x_offset, bottom := c.state_.clamp.bottom + y_offset } } }

/-- Member function `Region::clear()`: the shape batcher and the text store are emptied. -/
def Region.clear (r : Region) : Region :=
  { r with shape_batcher_ := [], text_store_ := [] }

/-- Put the heap next to the outcome of a call that works on the canvas. -/
def Exec.withHeap (e : Exec Canvas) (h : Heap) : Exec (Canvas × Heap) :=
  match e with
  | .ok c => .ok (c, h)
  | .assertFailed c => .assertFailed (c, h)
  | .undefinedBehaviour => .undefinedBehaviour
  | .outOfFuel => .outOfFuel

/-- Member function `Canvas::beginRegion(region)`. -/
def Canvas.beginRegion (debug : Bool) (c : Canvas) (h : Heap) (region : Nat) :
    Exec (Canvas × Heap) :=
  let h1 := h.set region (h region).clear
  let c1 := c.saveState
  let c2 := { c1 with state_ := { c1.state_ with x := 0, y := 0, blend_mode := BlendMode.Alpha } }
  ((Canvas.setClampBounds debug c2 0 0 (h1 region).width_ (h1 region).height_).withHeap h1).bind
    fun (c3, h1) =>
      let c4 := { c3 with state_ := { c3.state_ with color := {} } }
      let h2 := h1.set region { h1 region with palette_override_ := c4.state_.palette_override }
      .ok ({ c4 with state_ := { c4.state_ with current_region := some region } }, h2)

/-- Member function `Canvas::endRegion()`. -/
def Canvas.endRegion (c : Canvas) : Exec Canvas :=
  c.restoreState

/-- A call of one of the draw-state functions of `Canvas`. -/
inductive CanvasCall where
  | saveState
  | restoreState
  | setPosition (x y : Int)
  | setBlendMode (blend_mode : BlendMode)
  | setColor (color : QuadColor)
  | setPaletteOverride (override_id : Int)
  | setClampBounds (x y width height : Int)
  | setClampBoundsTo (bounds : ClampBounds)
  | moveClampBounds (x_offset y_offset : Int)
deriving DecidableEq

/-- Run one draw-state call. -/
def CanvasCall.run (debug : Bool) (c : Canvas) : CanvasCall → Exec Canvas
  | .saveState => .ok c.saveState
  | .restoreState => c.restoreState
  | .setPosition x y => .ok (c.setPosition x y)
  | .setBlendMode blend_mode => .ok (c.setBlendMode blend_mode)
  | .setColor color => .ok (c.setColor color)
  | .setPaletteOverride override_id => .ok (c.setPaletteOverride override_id)
  | .setClampBounds x y width height => c.setClampBounds debug x y width height
  | .setClampBoundsTo bounds => .ok (c.setClampBoundsTo bounds)
  | .moveClampBounds x_offset y_offset => .ok (c.moveClampBounds x_offset y_offset)

/-- Run draw-state calls in order, as long as each one returns. -/
def runCanvas (debug : Bool) (c : Canvas) (calls : List CanvasCall) : Exec Canvas :=
  calls.foldl (fun acc call => acc.bind (fun c1 => call.run debug c1)) (.ok c)

/-- The call is `saveState` or changes the current state only, and the
assertions it carries hold. -/
def CanvasCall.stateOnly : CanvasCall → Bool
  | .restoreState => false
  | .setClampBounds _ _ width height => decide (width ≥ 0) && decide (height ≥ 0)
  | _ => true

/-- Number of `saveState` calls in a sequence. -/
def saveCount (calls : List CanvasCall) : Nat :=
  calls.count .saveState

/-! ## Region overlap and sequences of `setBounds` -/

/-- Member function `Region::overlaps(other)`. -/
def Region.overlaps (r other : Region) : Bool :=
  decide (r.x_ < other.x_ + other.width_) && decide (r.x_ + r.width_ > other.x_) &&
    decide (r.y_ < other.y_ + other.height_) && decide (r.y_ + r.height_ > other.y_)

/-- The point `(px, py)` lies in the rectangle `[x, x + width) × [y, y + height)`
of the region. -/
def Region.covers (r : Region) (px py : Int) : Prop :=
  r.x_ ≤ px ∧ px < r.x_ + r.width_ ∧ r.y_ ≤ py ∧ py < r.y_ + r.height_

/-- Arguments `(x, y, width, height)` of one `setBounds` call. -/
structure BoundsArgs where
  x : Int
  y : Int
  width : Int
  height : Int
deriving DecidableEq, Repr

/-- A sequence of `setBounds` calls on one region, in order. -/
def Region.setBoundsAll (r : Region) (calls : List BoundsArgs) : Region :=
  calls.foldl (fun acc a => (acc.setBounds a.x a.y a.width a.height).1) r

/-! ## Shape batching -/

/-- Modelled from the spec: one tag per primitive class that the modelled
drawing functions of canvas.h construct ("each category maps to a distinct
draw pipeline"); the classes themselves are declared outside the sources at
hand. -/
inductive ShapeKind where
  | Fill
  | Circle
  | Rectangle
  | RoundedRectangle
  | RoundedSegment
  | FlatSegment
deriving DecidableEq, Repr

/-- The numeric category tag of a primitive class. -/
def ShapeKind.tag : ShapeKind → Nat
  | .Fill => 0
  | .Circle => 1
  | .Rectangle => 2
  | .RoundedRectangle => 3
  | .RoundedSegment => 4
  | .FlatSegment => 5

/-- Modelled from the spec: a batch of the shape batcher (`SubmitBatch`,
shape_batcher.h): primitives of one blend mode and one category, in
submission order. -/
structure SubmitBatch where
  blend_mode : BlendMode
  category : Nat
  shapes : List Shape
deriving DecidableEq

/-- Modelled from the spec: `ShapeBatcher::addShape(shape, blend_mode)` of
shape_batcher.h, which is not part of the sources at hand. Section 4.4 of the
specification: "a batch boundary is introduced whenever consecutive
primitives differ in blend mode or in primitive category" and "primitives
within a batch preserve submission order". The new primitive joins the last
batch when that batch has its blend mode and category, and opens a new last
batch otherwise. -/
def ShapeBatcher.addShape (batches : List SubmitBatch) (shape : Shape) : List SubmitBatch :=
  match batches.getLast? with
  | some last =>
    if last.blend_mode = shape.blend_mode ∧ last.category = shape.category then
      batches.dropLast ++ [{ last with shapes := last.shapes ++ [shape] }]
    else batches ++ [⟨shape.blend_mode, shape.category, [shape]⟩]
  | none => [⟨shape.blend_mode, shape.category, [shape]⟩]

/-- The batches the batcher holds after the given submissions, starting empty. -/
def ShapeBatcher.batches (submitted : List Shape) : List SubmitBatch :=
  submitted.foldl ShapeBatcher.addShape []

/-- Member function `Region::numSubmitBatches()`. -/
def Region.numSubmitBatches (r : Region) : Nat :=
  (ShapeBatcher.batches r.shape_batcher_).length

/-- Member function `Region::submitBatchAtPosition(position)`. -/
def Region.submitBatchAtPosition (r : Region) (position : Nat) : Option SubmitBatch :=
  (ShapeBatcher.batches r.shape_batcher_).get? position

/-- Two batches that the batcher may not keep apart: same blend mode and same
category. -/
def SubmitBatch.sameKey (a b : SubmitBatch) : Prop :=
  a.blend_mode = b.blend_mode ∧ a.category = b.category

/-- A batch is a run: it is not empty and every primitive in it has the blend
mode and category of the batch. -/
def SubmitBatch.isRun (b : SubmitBatch) : Prop :=
  b.shapes ≠ [] ∧ ∀ s, s ∈ b.shapes → s.blend_mode = b.blend_mode ∧ s.category = b.category

/-- The primitives of all batches, batch after batch. -/
def flattenBatches (batches : List SubmitBatch) : List Shape :=
  (batches.map (fun b => b.shapes)).flatten

/-! ## Canvas drawing calls -/

/-- Member function `Canvas::addShape(shape)`: the primitive goes to the shape
batcher of the current region with the blend mode of the draw state. A null
`current_region` is dereferenced, which is undefined behaviour. -/
def Canvas.addShape (c : Canvas) (h : Heap) (shape : Shape) : Exec (Canvas × Heap) :=
  match c.state_.current_region with
  | some region =>
    .ok (c, h.set region { h region with shape_batcher_ :=
      (h region).shape_batcher_ ++ [{ shape with blend_mode := c.state_.blend_mode }] })
  | none => .undefinedBehaviour

/-- Member function `Canvas::fill(x, y, width, height)`. `ClampBounds::clamp` is
declared outside the sources at hand and is taken as the parameter `clampTo`. -/
def Canvas.fill (clampTo : ClampBounds → ℚ → ℚ → ℚ → ℚ → ClampBounds) (c : Canvas) (h : Heap)
    (x y width height : ℚ) : Exec (Canvas × Heap) :=
  c.addShape h { category := ShapeKind.Fill.tag, clamp := clampTo c.state_.clamp x y width height,
                 color := c.state_.color, x := c.state_.x + x, y := c.state_.y + y,
                 width := width, height := height }

/-- Member function `Canvas::circle(x, y, width)`; the one extent of the circle
is kept as width and height. -/
def Canvas.circle (c : Canvas) (h : Heap) (x y width : ℚ) : Exec (Canvas × Heap) :=
  c.addShape h { category := ShapeKind.Circle.tag, clamp := c.state_.clamp,
                 color := c.state_.color, x := c.state_.x + x, y := c.state_.y + y,
                 width := width, height := width }

/-- Member function `Canvas::rectangleShadow(x, y, width, height, blur_radius)`. -/
def Canvas.rectangleShadow (c : Canvas) (h : Heap) (x y width height blur_radius : ℚ) :
    Exec (Canvas × Heap) :=
  if blur_radius > 0 then
    c.addShape h { category := ShapeKind.Rectangle.tag, clamp := c.state_.clamp,
                   color := c.state_.color, x := c.state_.x + x, y := c.state_.y + y,
                   width := width, height := height, pixel_width := some blur_radius }
  else .ok (c, h)

/-- Member function
`Canvas::roundedRectangleShadow(x, y, width, height, rounding, blur_radius)`. -/
def Canvas.roundedRectangleShadow (c : Canvas) (h : Heap)
    (x y width height rounding blur_radius : ℚ) : Exec (Canvas × Heap) :=
  if blur_radius ≤ 0 then .ok (c, h)
  else
    let offset : ℚ := -blur_radius * (1 / 2)
    if rounding ≤ 1 then
      c.rectangleShadow h (c.state_.x + x + offset) (c.state_.y + y + offset)
        (width + blur_radius) (height + blur_radius) blur_radius
    else
      c.addShape h { category := ShapeKind.RoundedRectangle.tag, clamp := c.state_.clamp,
                     color := c.state_.color, x := c.state_.x + x + offset,
                     y := c.state_.y + y + offset, width := width + blur_radius,
                     height := height + blur_radius, args := [rounding],
                     pixel_width := some blur_radius }

/-- Member function
`Canvas::fullRoundedRectangleBorder(x, y, width, height, rounding, thickness)`. -/
def Canvas.fullRoundedRectangleBorder (c : Canvas) (h : Heap)
    (x y width height rounding thickness : ℚ) : Exec (Canvas × Heap) :=
  c.addShape h { category := ShapeKind.RoundedRectangle.tag, clamp := c.state_.clamp,
                 color := c.state_.color, x := c.state_.x + x, y := c.state_.y + y,
                 width := width, height := height, args := [rounding],
                 thickness := some thickness }

/-- An assignment to members of `state_.clamp`: the clip rectangle of the
current state becomes `clamp`. -/
def Canvas.assignClamp (c : Canvas) (clamp : ClampBounds) : Canvas :=
  { c with state_ := { c.state_ with clamp := clamp } }

/-- Member function
`Canvas::roundedRectangleBorder(x, y, width, height, rounding, thickness)`. -/
def Canvas.roundedRectangleBorder (c : Canvas) (h : Heap)
    (x y width height rounding thickness : ℚ) : Exec (Canvas × Heap) :=
  let c := c.saveState
  let left := c.state_.clamp.left
  let right := c.state_.clamp.right
  let top := c.state_.clamp.top
  let bottom := c.state_.clamp.bottom
  let part := max rounding thickness
  let c := c.assignClamp { c.state_.clamp with right := min right (c.state_.x + x + part + 1) }
  (c.fullRoundedRectangleBorder h x y width height rounding thickness).bind fun (c, h) =>
  let c := c.assignClamp { c.state_.clamp with right := right }
  let c := c.assignClamp { c.state_.clamp with
    left := max left (c.state_.x + x + width - part - 1) }
  (c.fullRoundedRectangleBorder h x y width height rounding thickness).bind fun (c, h) =>
  let c := c.assignClamp { c.state_.clamp with left := max left (c.state_.x + x + part + 1) }
  let c := c.assignClamp { c.state_.clamp with
    right := min right (c.state_.x + x + width - part - 1) }
  let c := c.assignClamp { c.state_.clamp with bottom := min bottom (c.state_.y + y + part + 1) }
  (c.fullRoundedRectangleBorder h x y width height rounding thickness).bind fun (c, h) =>
  let c := c.assignClamp { c.state_.clamp with bottom := bottom }
  let c := c.assignClamp { c.state_.clamp with
    top := max top (c.state_.y + y + height - part - 1) }
  (c.fullRoundedRectangleBorder h x y width height rounding thickness).bind fun (c, h) =>
  c.restoreState.withHeap h

/-- The clip rectangle `inner` does not reach beyond `outer` on any side. -/
def ClampBounds.within (inner outer : ClampBounds) : Prop :=
  outer.left ≤ inner.left ∧ inner.right ≤ outer.right ∧
    outer.top ≤ inner.top ∧ inner.bottom ≤ outer.bottom

/-! ## Region tree: specification vocabulary -/

/-- What one `setCanvas(c)` activity started at the regions `roots` does to a
heap: only `canvas_` members change, and only to `c`; the children of a
changed region end with `c`; a changed region is a root or a child of a
changed region; every root ends with `c`. -/
structure CanvasSpread (h : Heap) (c : Option Nat) (roots : List Nat) (h1 : Heap) : Prop where
  frame : ∀ r, h1 r = { h r with canvas_ := (h1 r).canvas_ }
  old_or_new : ∀ r, (h1 r).canvas_ = (h r).canvas_ ∨ (h1 r).canvas_ = c
  children : ∀ q r, (h1 q).canvas_ ≠ (h q).canvas_ → r ∈ (h q).sub_regions_ → (h1 r).canvas_ = c
  origin : ∀ r, (h1 r).canvas_ ≠ (h r).canvas_ →
    r ∈ roots ∨ ∃ q, (h1 q).canvas_ ≠ (h q).canvas_ ∧ r ∈ (h q).sub_regions_
  roots_set : ∀ r, r ∈ roots → (h1 r).canvas_ = c

/-- Every address stored in a child sequence belongs to the list `D` of
allocated regions. -/
def ChildrenWithin (D : List Nat) (h : Heap) : Prop :=
  ∀ q r, r ∈ (h q).sub_regions_ → r ∈ D

/-- Number of allocated regions whose canvas reference differs from `c`. -/
def pending (D : List Nat) (h : Heap) (c : Option Nat) : Nat :=
  (D.filter (fun r => decide ((h r).canvas_ ≠ c))).length

/-- The heap `addRegion` has built when it reaches its `if (canvas_)` test:
`region` pushed onto the child sequence of `self`, `region->parent_` set. -/
def linked (h : Heap) (self region : Nat) : Heap :=
  let h1 := h.set self { h self with sub_regions_ := (h self).sub_regions_ ++ [region] }
  h1.set region { h1 region with parent_ := some self }

/-- The heap `removeRegion` hands to `setCanvas(nullptr)`: `region->parent_`
cleared, the child sequence of the receiver not yet touched. -/
def unparented (h : Heap) (region : Nat) : Heap :=
  h.set region { h region with parent_ := none }

/-- Child sequences and parent references describe the same edges, no child
sequence holds an address twice, and every child is an allocated region. -/
structure TreeInv (D : List Nat) (h : Heap) : Prop where
  child_parent : ∀ q r, r ∈ (h q).sub_regions_ → (h r).parent_ = some q
  parent_child : ∀ q r, (h r).parent_ = some q → r ∈ (h q).sub_regions_
  nodup : ∀ q, (h q).sub_regions_.Nodup
  within : ChildrenWithin D h

/-- Every region that has a parent holds the canvas reference of its parent. -/
def CanvasInv (h : Heap) : Prop :=
  ∀ q r, (h r).parent_ = some q → (h r).canvas_ = (h q).canvas_

/-- A region without a parent holds no canvas reference, or still the one it
held in the heap `h0`. -/
def RootInv (h0 h : Heap) : Prop :=
  ∀ r, (h r).parent_ = none → (h r).canvas_ = none ∨ (h r).canvas_ = (h0 r).canvas_

/-- Reachability: `b` is `a` or is reached from `a` through child sequences. -/
inductive Reaches (h : Heap) (a : Nat) : Nat → Prop where
  | self : Reaches h a a
  | child (q r : Nat) : Reaches h a q → r ∈ (h q).sub_regions_ → Reaches h a r

/-- A call of one of the two tree mutators, with receiver and argument. -/
inductive TreeCall where
  | addRegion (self region : Nat)
  | removeRegion (self region : Nat)
deriving DecidableEq, Repr

/-- Run one call. -/
def TreeCall.run (debug : Bool) (fuel : Nat) (h : Heap) : TreeCall → Exec Heap
  | .addRegion self region => Region.addRegion debug fuel h self region
  | .removeRegion self region => Region.removeRegion fuel h self region

/-- Run calls in order, as long as each one returns. -/
def runCalls (debug : Bool) (fuel : Nat) (h : Heap) (calls : List TreeCall) : Exec Heap :=
  calls.foldl (fun acc c => acc.bind (fun h1 => c.run debug fuel h1)) (.ok h)

/-- Precondition of a call: the added child has no parent; the removed child
is in the child sequence of the receiver. -/
def TreeCall.pre (h : Heap) : TreeCall → Prop
  | .addRegion _ region => (h region).parent_ = none
  | .removeRegion self region => region ∈ (h self).sub_regions_

/-- A child added to a receiver that holds no canvas reference holds none
itself. -/
def TreeCall.canvasCompatible (h : Heap) : TreeCall → Prop
  | .addRegion self region => (h self).canvas_ = none → (h region).canvas_ = none
  | .removeRegion _ _ => True

/-- Receiver and argument are allocated regions. -/
def TreeCall.within (D : List Nat) : TreeCall → Prop
  | .addRegion self region => self ∈ D ∧ region ∈ D
  | .removeRegion self region => self ∈ D ∧ region ∈ D

/-- Every call of the sequence meets `pre` in the heap it is made in. -/
def CallsMeet (pre : Heap → TreeCall → Prop) (debug : Bool) (fuel : Nat) :
    Heap → List TreeCall → Prop
  | _, [] => True
  | h, c :: cs => pre h c ∧ ∀ h1, c.run debug fuel h = .ok h1 → CallsMeet pre debug fuel h1 cs

/-- No region has a parent and no region has a child. -/
def Unattached (h : Heap) : Prop :=
  ∀ r, (h r).parent_ = none ∧ (h r).sub_regions_ = []

/-- A heap of default-constructed regions in which region `1` has been given
canvas `7` (as `Canvas::addRegion` or a direct `setCanvas` call does). -/
def heapChildHasCanvas : Heap :=
  fun r => if r = 1 then { canvas_ := some 7 } else {}

/-- A heap of default-constructed regions in which region `0` has been given
canvas `7`. -/
def heapRootHasCanvas : Heap :=
  fun r => if r = 0 then { canvas_ := some 7 } else {}

/-- Three calls: attach `1` under `0`, attach `2` under `1`, detach `1`. -/
def sampleCalls : List TreeCall :=
  [.addRegion 0 1, .addRegion 1 2, .removeRegion 0 1]

/-- Receiver of a call. -/
def TreeCall.receiver : TreeCall → Nat
  | .addRegion self _ => self
  | .removeRegion self _ => self

/-- The child sequence the specification prescribes after a call, from the
sequence before it: the added child appended as last element; the removed
child left out and all other children kept in their order. -/
def childrenAfter (children : List Nat) : TreeCall → List Nat
  | .addRegion _ region => children ++ [region]
  | .removeRegion _ region => children.filter (fun x => x != region)

/-- A chain `0 → 1 → 2` of attached regions, all holding canvas `7`. -/
def heapChain : Heap :=
  fun r =>
    if r = 0 then { canvas_ := some 7, sub_regions_ := [1] }
    else if r = 1 then { canvas_ := some 7, parent_ := some 0, sub_regions_ := [2] }
    else if r = 2 then { canvas_ := some 7, parent_ := some 1 }
    else {}

/-- A 10 by 20 layer with nothing pending. -/
def sampleLayer : Layer :=
  { width_ := 10, height_ := 20 }

/-- A canvas in the middle of drawing: offset position, a clip, one saved
state. -/
def sampleCanvas : Canvas :=
  { state_ := { x := 3, y := 4, clamp := { left := 1, top := 2, right := 30, bottom := 40 },
                blend_mode := BlendMode.Additive, color := { value := 9 } },
    state_memory_ := [{}] }

/-- A heap whose region `5` is 100 by 50 and holds a stored text. -/
def heapSized : Heap :=
  fun r => if r = 5 then { width_ := 100, height_ := 50, text_store_ := [1] } else {}

/-- One further `saveState` with mutations of every kind around it. -/
def sampleBody : List CanvasCall :=
  [.setPosition 5 6, .setColor { value := 3 }, .saveState, .setBlendMode BlendMode.Additive,
   .setClampBounds 1 1 10 10, .moveClampBounds 2 2, .setPaletteOverride 4]

/-- A region of no extent at `(5, 5)`. -/
def regionPoint : Region :=
  { x_ := 5, y_ := 5 }

/-- A 10 by 10 region at the origin. -/
def regionSquare : Region :=
  { width_ := 10, height_ := 10 }

/-- The batches are the maximal runs of the submitted sequence: put end to
end they give the sequence back, each is a run, and no two neighbours have
the same blend mode and category. -/
structure MaximalRuns (submitted : List Shape) (batches : List SubmitBatch) : Prop where
  flat : flattenBatches batches = submitted
  runs : ∀ b, b ∈ batches → b.isRun
  split : List.Chain' (fun a b => ¬a.sameKey b) batches

/-- A canvas whose current region is region `5`. -/
def canvasOnRegion : Canvas :=
  { state_ := { current_region := some 5 } }

/-- The drawing `fill`, `fill`, `circle` under blend mode `Alpha`, then `fill`
under blend mode `Additive`, into region `5`. -/
def sampleDrawing : Exec (Canvas × Heap) :=
  (((Canvas.fill (fun b _ _ _ _ => b) canvasOnRegion heapSized 0 0 4 4).bind
    fun p => Canvas.fill (fun b _ _ _ _ => b) p.1 p.2 1 1 2 2).bind
    fun p => p.1.circle p.2 0 0 3).bind
    fun p => Canvas.fill (fun b _ _ _ _ => b) (p.1.setBlendMode BlendMode.Additive) p.2 0 0 1 1

/-- A canvas at draw position `(3, 4)` whose current region is region `5`. -/
def canvasOffset : Canvas :=
  { state_ := { x := 3, y := 4, current_region := some 5 } }

/-- Position and size of the shapes submitted to a region, in order. -/
def placements (r : Region) : List (ℚ × ℚ × ℚ × ℚ) :=
  r.shape_batcher_.map (fun s => (s.x, s.y, s.width, s.height))

/-- A region that has received two fills and a circle under `Alpha` and a
fill under `Additive`. -/
def regionDrawn : Region :=
  { shape_batcher_ :=
      [{ category := ShapeKind.Fill.tag, clamp := {}, color := {}, x := 0, y := 0,
         width := 4, height := 4 },
       { category := ShapeKind.Fill.tag, clamp := {}, color := {}, x := 1, y := 1,
         width := 2, height := 2 },
       { category := ShapeKind.Circle.tag, clamp := {}, color := {}, x := 0, y := 0,
         width := 3, height := 3 },
       { category := ShapeKind.Fill.tag, blend_mode := BlendMode.Additive, clamp := {},
         color := {}, x := 0, y := 0, width := 1, height := 1 }] }

/-- A heap whose region `5` is `2^24 + 1` wide and `1` high. -/
def heapWide : Heap :=
  fun r => if r = 5 then { width_ := 16777217, height_ := 1 } else {}

theorem floatSpacing_pos (q : ℚ) : 0 < floatSpacing q := by
  unfold floatSpacing
  positivity

theorem roundNearestEven_intCast (m : ℤ) : roundNearestEven (m : ℚ) = m := by
  simp [roundNearestEven]

/-- A multiple of the spacing at its own position is a binary32 value. -/
theorem roundToFloat_of_multiple (q : ℚ) (m : ℤ) (h : q = m * floatSpacing q) :
    roundToFloat q = q := by
  have hs := ne_of_gt (floatSpacing_pos q)
  have hdiv : q / floatSpacing q = m := by
    rw [div_eq_iff hs]; exact h
  unfold roundToFloat
  rw [hdiv, roundNearestEven_intCast]
  exact h.symm

theorem floatExponent_eq (q : ℚ) (e : ℤ) (h1 : (2 : ℚ) ^ e ≤ |q|)
    (h2 : |q| < (2 : ℚ) ^ (e + 1)) (h3 : -126 ≤ e) : floatExponent q = e := by
  have hpos : 0 < |q| := lt_of_lt_of_le (by positivity) h1
  have ha : e ≤ Int.log 2 |q| :=
    (Int.zpow_le_iff_le_log (by norm_num) hpos).mp (by exact_mod_cast h1)
  have hb : Int.log 2 |q| < e + 1 :=
    (Int.lt_zpow_iff_log_lt (by norm_num) hpos).mp (by exact_mod_cast h2)
  unfold floatExponent
  omega

theorem roundToFloat_zero : roundToFloat 0 = 0 :=
  roundToFloat_of_multiple 0 0 (by simp)

/-- Integers of magnitude up to `2^24` are binary32 values. -/
theorem roundToFloat_intCast (n : ℤ) (h : |n| ≤ 2 ^ 24) : roundToFloat (n : ℚ) = n := by
  by_cases hn : n = 0
  · subst hn
    simpa using roundToFloat_zero
  · have h1 : (1 : ℚ) ≤ |(n : ℚ)| := by
      have : (1 : ℤ) ≤ |n| := Int.one_le_abs hn
      exact_mod_cast this
    have hpos : (0 : ℚ) < |(n : ℚ)| := lt_of_lt_of_le one_pos h1
    have hle : |(n : ℚ)| ≤ 2 ^ 24 := by exact_mod_cast h
    have he0 : 0 ≤ Int.log 2 |(n : ℚ)| :=
      (Int.zpow_le_iff_le_log (by norm_num) hpos).mp (by simpa using h1)
    have he24 : Int.log 2 |(n : ℚ)| < 25 :=
      (Int.lt_zpow_iff_log_lt (by norm_num) hpos).mp
        (lt_of_le_of_lt hle (by norm_num))
    have hlow : ((2 : ℕ) : ℚ) ^ Int.log 2 |(n : ℚ)| ≤ |(n : ℚ)| :=
      Int.zpow_log_le_self (by norm_num) hpos
    have hb : floatExponent (n : ℚ) = Int.log 2 |(n : ℚ)| := by
      unfold floatExponent
      omega
    by_cases he : Int.log 2 |(n : ℚ)| ≤ 23
    · obtain ⟨k, hk⟩ : ∃ k : ℕ, (k : ℤ) = 23 - Int.log 2 |(n : ℚ)| :=
        ⟨(23 - Int.log 2 |(n : ℚ)|).toNat, by omega⟩
      apply roundToFloat_of_multiple (n : ℚ) (n * 2 ^ k)
      unfold floatSpacing
      rw [hb]
      have hexp : Int.log 2 |(n : ℚ)| - 23 = -(k : ℤ) := by omega
      rw [hexp, zpow_neg, zpow_natCast]
      push_cast
      field_simp
    · have he24b : Int.log 2 |(n : ℚ)| = 24 := by omega
      rw [he24b] at hlow
      have habs : |n| = 2 ^ 24 := by
        have : (2 : ℚ) ^ (24 : ℤ) ≤ |(n : ℚ)| := by simpa using hlow
        have h2 : ((2 ^ 24 : ℤ) : ℚ) ≤ ((|n| : ℤ) : ℚ) := by
          push_cast
          norm_num at this ⊢
          exact this
        have h3 : (2 ^ 24 : ℤ) ≤ |n| := by exact_mod_cast h2
        omega
      apply roundToFloat_of_multiple (n : ℚ) (n / 2)
      unfold floatSpacing
      rw [hb, he24b]
      rcases abs_eq (by norm_num : (0 : ℤ) ≤ 2 ^ 24) |>.mp habs with hv | hv
      · subst hv; norm_num
      · subst hv; norm_num

theorem intToFloat_of_small (n : ℤ) (h : |n| ≤ 2 ^ 24) : intToFloat n = n :=
  roundToFloat_intCast n h

theorem roundNearestEven_of_floor (r : ℚ) (f : ℤ) (hf1 : (f : ℚ) ≤ r) (hf2 : r < f + 1) :
    roundNearestEven r =
      if r - f < 1 / 2 then f else if 1 / 2 < r - f then f + 1
      else if f % 2 = 0 then f else f + 1 := by
  have hfl : ⌊r⌋ = f := Int.floor_eq_iff.mpr ⟨hf1, hf2⟩
  unfold roundNearestEven
  rw [hfl]

/-- Rounding at a given input, from its exponent `e` and the integer part `f`
of its quotient by the spacing. -/
theorem roundToFloat_at (q : ℚ) (e f : ℤ) (h1 : (2 : ℚ) ^ e ≤ |q|)
    (h2 : |q| < (2 : ℚ) ^ (e + 1)) (h3 : -126 ≤ e)
    (hf1 : (f : ℚ) ≤ q / 2 ^ (e - 23)) (hf2 : q / 2 ^ (e - 23) < f + 1) :
    roundToFloat q =
      ((if q / 2 ^ (e - 23) - f < 1 / 2 then f else if 1 / 2 < q / 2 ^ (e - 23) - f then f + 1
        else if f % 2 = 0 then f else f + 1 : ℤ) : ℚ) * 2 ^ (e - 23) := by
  unfold roundToFloat floatSpacing
  rw [floatExponent_eq q e h1 h2 h3, roundNearestEven_of_floor _ f hf1 hf2]

theorem Heap.set_same (h : Heap) (r : Nat) (v : Region) : (h.set r v) r = v := by
  simp [Heap.set]

theorem Heap.set_other (h : Heap) (r i : Nat) (v : Region) (hne : i ≠ r) :
    (h.set r v) i = h i := by
  simp [Heap.set, hne]

theorem CanvasSpread.sub_regions_eq {h h1 : Heap} {c : Option Nat} {roots : List Nat}
    (hs : CanvasSpread h c roots h1) (r : Nat) : (h1 r).sub_regions_ = (h r).sub_regions_ := by
  rw [hs.frame r]

theorem CanvasSpread.parent_eq {h h1 : Heap} {c : Option Nat} {roots : List Nat}
    (hs : CanvasSpread h c roots h1) (r : Nat) : (h1 r).parent_ = (h r).parent_ := by
  rw [hs.frame r]

theorem CanvasSpread.keeps {h h1 : Heap} {c : Option Nat} {roots : List Nat}
    (hs : CanvasSpread h c roots h1) (r : Nat) (hr : (h r).canvas_ = c) :
    (h1 r).canvas_ = c := by
  rcases hs.old_or_new r with h2 | h2
  · rw [h2, hr]
  · exact h2

theorem CanvasSpread.changed_new {h h1 : Heap} {c : Option Nat} {roots : List Nat}
    (hs : CanvasSpread h c roots h1) (r : Nat) (hr : (h1 r).canvas_ ≠ (h r).canvas_) :
    (h1 r).canvas_ = c := by
  rcases hs.old_or_new r with h2 | h2
  · exact absurd h2 hr
  · exact h2

theorem CanvasSpread.nil (h : Heap) (c : Option Nat) : CanvasSpread h c [] h where
  frame := fun _ => rfl
  old_or_new := fun _ => Or.inl rfl
  children := fun _ _ hq _ => absurd rfl hq
  origin := fun _ hr => absurd rfl hr
  roots_set := fun _ hr => absurd hr (List.not_mem_nil _)

theorem CanvasSpread.already (h : Heap) (c : Option Nat) (r : Nat) (hr : (h r).canvas_ = c) :
    CanvasSpread h c [r] h where
  frame := fun _ => rfl
  old_or_new := fun _ => Or.inl rfl
  children := fun _ _ hq _ => absurd rfl hq
  origin := fun _ hq => absurd rfl hq
  roots_set := fun x hx => by
    rw [List.mem_singleton] at hx
    rw [hx, hr]

theorem CanvasSpread.append {h h1 h2 : Heap} {c : Option Nat} {A B : List Nat}
    (hA : CanvasSpread h c A h1) (hB : CanvasSpread h1 c B h2) :
    CanvasSpread h c (A ++ B) h2 where
  frame := fun r => by
    rw [hB.frame r, hA.frame r]
  old_or_new := fun r => by
    rcases hB.old_or_new r with h3 | h3
    · rcases hA.old_or_new r with h4 | h4
      · exact Or.inl (h3.trans h4)
      · exact Or.inr (h3.trans h4)
    · exact Or.inr h3
  children := fun q r hq hr => by
    by_cases h3 : (h1 q).canvas_ = (h q).canvas_
    · have h4 : (h2 q).canvas_ ≠ (h1 q).canvas_ := fun e => hq (e.trans h3)
      exact hB.children q r h4 (by rw [hA.sub_regions_eq q]; exact hr)
    · exact hB.keeps r (hA.children q r h3 hr)
  origin := fun r hr => by
    by_cases h3 : (h1 r).canvas_ = (h r).canvas_
    · have h4 : (h2 r).canvas_ ≠ (h1 r).canvas_ := fun e => hr (e.trans h3)
      rcases hB.origin r h4 with h5 | ⟨q, h5, h6⟩
      · exact Or.inl (List.mem_append_right A h5)
      · refine Or.inr ⟨q, ?_, by rw [← hA.sub_regions_eq q]; exact h6⟩
        have h7 : (h2 q).canvas_ = c := hB.changed_new q h5
        intro e
        rcases hA.old_or_new q with h8 | h8
        · exact h5 (e.trans h8.symm)
        · exact h5 (h7.trans h8.symm)
    · rcases hA.origin r h3 with h5 | ⟨q, h5, h6⟩
      · exact Or.inl (List.mem_append_left B h5)
      · refine Or.inr ⟨q, ?_, h6⟩
        have h7 : (h1 q).canvas_ = c := hA.changed_new q h5
        have h8 : (h2 q).canvas_ = c := hB.keeps q h7
        intro e
        exact h5 (h7.trans (h8.symm.trans e))
  roots_set := fun r hr => by
    rcases List.mem_append.mp hr with h3 | h3
    · exact hB.keeps r (hA.roots_set r h3)
    · exact hB.roots_set r h3

theorem CanvasSpread.step {h h2 : Heap} {c : Option Nat} {self : Nat}
    (hne : (h self).canvas_ ≠ c)
    (hs : CanvasSpread (h.set self { h self with canvas_ := c }) c (h self).sub_regions_ h2) :
    CanvasSpread h c [self] h2 := by
  have hself : (h2 self).canvas_ = c := hs.keeps self (by rw [Heap.set_same])
  have hother : ∀ r, r ≠ self → (h.set self { h self with canvas_ := c }) r = h r :=
    fun r hr => Heap.set_other h self r _ hr
  have hsubs : ∀ r, ((h.set self { h self with canvas_ := c }) r).sub_regions_
      = (h r).sub_regions_ := by
    intro r
    by_cases hr : r = self
    · subst hr; rw [Heap.set_same]
    · rw [hother r hr]
  refine ⟨?_, ?_, ?_, ?_, ?_⟩
  · intro r
    by_cases hr : r = self
    · subst hr
      have := hs.frame r
      rw [Heap.set_same] at this
      rw [this]
    · have := hs.frame r
      rw [hother r hr] at this
      exact this
  · intro r
    by_cases hr : r = self
    · subst hr; exact Or.inr hself
    · have := hs.old_or_new r
      rw [hother r hr] at this
      exact this
  · intro q r hq hr
    by_cases hqs : q = self
    · subst hqs
      exact hs.roots_set r hr
    · refine hs.children q r ?_ ?_
      · rw [hother q hqs]; exact hq
      · rw [hsubs q]; exact hr
  · intro r hr
    by_cases hrs : r = self
    · exact Or.inl (by rw [hrs]; exact List.mem_singleton_self self)
    · have h3 : (h2 r).canvas_ ≠ ((h.set self { h self with canvas_ := c }) r).canvas_ := by
        rw [hother r hrs]; exact hr
      rcases hs.origin r h3 with h4 | ⟨q, h5, h6⟩
      · exact Or.inr ⟨self, by rw [hself]; exact fun e => hne e.symm, h4⟩
      · have hqs : q ≠ self := by
          intro e
          subst e
          rw [Heap.set_same] at h5
          exact h5 hself
        refine Or.inr ⟨q, ?_, ?_⟩
        · rw [hother q hqs] at h5; exact h5
        · rw [hsubs q] at h6; exact h6
  · intro r hr
    rw [List.mem_singleton] at hr
    rw [hr]; exact hself

theorem ChildrenWithin.across_spread {D : List Nat} {h h1 : Heap} {c : Option Nat} {roots : List Nat}
    (hD : ChildrenWithin D h) (hs : CanvasSpread h c roots h1) : ChildrenWithin D h1 := by
  intro q r hr
  rw [hs.sub_regions_eq q] at hr
  exact hD q r hr

theorem filter_length_le_of_imp (p q : Nat → Bool) (D : List Nat)
    (hpq : ∀ x, p x = true → q x = true) :
    (D.filter p).length ≤ (D.filter q).length := by
  induction D with
  | nil => simp
  | cons a D ih =>
    cases hp : p a <;> cases hq : q a
    · simpa [List.filter_cons, hp, hq] using ih
    · simp only [List.filter_cons, hp, hq, if_true, List.length_cons]
      exact Nat.le_succ_of_le ih
    · rw [hpq a hp] at hq; cases hq
    · simpa [List.filter_cons, hp, hq] using ih

theorem filter_length_lt_of_imp (p q : Nat → Bool) (D : List Nat)
    (hpq : ∀ x, p x = true → q x = true) (a : Nat) (ha : a ∈ D)
    (hqa : q a = true) (hpa : p a = false) :
    (D.filter p).length < (D.filter q).length := by
  induction D with
  | nil => exact absurd ha (List.not_mem_nil _)
  | cons b D ih =>
    by_cases hb : b = a
    · subst hb
      have hle := filter_length_le_of_imp p q D hpq
      simp only [List.filter_cons, hpa, hqa, if_true, List.length_cons]
      exact Nat.lt_succ_of_le hle
    · have hmem : a ∈ D := by
        rcases List.mem_cons.mp ha with e | e
        · exact absurd e.symm hb
        · exact e
      have hlt := ih hmem
      cases hp : p b <;> cases hq : q b
      · simpa [List.filter_cons, hp, hq] using hlt
      · simp only [List.filter_cons, hp, hq, if_true, List.length_cons]
        exact Nat.lt_succ_of_lt hlt
      · rw [hpq b hp] at hq; cases hq
      · simpa [List.filter_cons, hp, hq] using hlt

theorem pending_le_of_spread {D : List Nat} {h h1 : Heap} {c : Option Nat} {roots : List Nat}
    (hs : CanvasSpread h c roots h1) : pending D h1 c ≤ pending D h c := by
  unfold pending
  apply filter_length_le_of_imp
  intro x hx
  rw [decide_eq_true_eq] at hx ⊢
  exact fun e => hx (hs.keeps x e)

theorem pending_set_lt {D : List Nat} {h : Heap} {c : Option Nat} {self : Nat}
    (hmem : self ∈ D) (hne : (h self).canvas_ ≠ c) :
    pending D (h.set self { h self with canvas_ := c }) c < pending D h c := by
  unfold pending
  apply filter_length_lt_of_imp _ _ D _ self hmem
  · rw [decide_eq_true_eq]; exact hne
  · rw [decide_eq_false_iff_not, Heap.set_same]
    exact fun hn => hn rfl
  · intro x hx
    rw [decide_eq_true_eq] at hx ⊢
    by_cases hxs : x = self
    · rw [hxs]; exact hne
    · rw [Heap.set_other h self x _ hxs] at hx
      exact hx

theorem forEachSubRegion_cons_ok (call : Heap → Nat → Exec Heap) (s : Nat) (rest : List Nat)
    (h h1 : Heap) (hc : call h s = .ok h1) :
    forEachSubRegion call (s :: rest) h = forEachSubRegion call rest h1 := by
  simp [forEachSubRegion, List.foldl_cons, Exec.bind, hc]

theorem forEachSubRegion_returns (D : List Nat) (c : Option Nat) (call : Heap → Nat → Exec Heap)
    (n : Nat)
    (hcall : ∀ h s, ChildrenWithin D h → s ∈ D → pending D h c < n →
      ∃ h1, call h s = .ok h1 ∧ CanvasSpread h c [s] h1) :
    ∀ (subs : List Nat) (h : Heap), ChildrenWithin D h → (∀ s, s ∈ subs → s ∈ D) →
      pending D h c < n →
      ∃ h1, forEachSubRegion call subs h = .ok h1 ∧ CanvasSpread h c subs h1 := by
  intro subs
  induction subs with
  | nil =>
    intro h _ _ _
    exact ⟨h, rfl, CanvasSpread.nil h c⟩
  | cons s rest ih =>
    intro h hD hsub hp
    obtain ⟨h1, hc, hs1⟩ := hcall h s hD (hsub s (List.mem_cons_self s rest)) hp
    have hp1 : pending D h1 c < n := Nat.lt_of_le_of_lt (pending_le_of_spread hs1) hp
    obtain ⟨h2, hr, hs2⟩ := ih h1 (hD.across_spread hs1)
      (fun x hx => hsub x (List.mem_cons_of_mem s hx)) hp1
    refine ⟨h2, ?_, ?_⟩
    · rw [forEachSubRegion_cons_ok call s rest h h1 hc]; exact hr
    · exact CanvasSpread.append hs1 hs2

/-- With more fuel than there are allocated regions left to change,
`setCanvas` returns, and its effect is a `CanvasSpread` from `self`. -/
theorem setCanvas_returns (D : List Nat) (c : Option Nat) :
    ∀ (fuel : Nat) (h : Heap) (self : Nat), ChildrenWithin D h → self ∈ D →
      pending D h c < fuel →
      ∃ h1, Region.setCanvas fuel h self c = .ok h1 ∧ CanvasSpread h c [self] h1 := by
  intro fuel
  induction fuel with
  | zero =>
    intro h self _ _ hp
    exact absurd hp (Nat.not_lt_zero _)
  | succ fuel ih =>
    intro h self hD hmem hp
    by_cases hc : (h self).canvas_ = c
    · refine ⟨h, ?_, CanvasSpread.already h c self hc⟩
      simp [Region.setCanvas, hc]
    · have hlt := pending_set_lt hmem hc
      have hD1 : ChildrenWithin D (h.set self { h self with canvas_ := c }) := by
        intro q r hr
        by_cases hq : q = self
        · subst hq
          rw [Heap.set_same] at hr
          exact hD q r hr
        · rw [Heap.set_other h self q _ hq] at hr
          exact hD q r hr
      have hsubs : ∀ s, s ∈ (h self).sub_regions_ → s ∈ D := fun s hs => hD self s hs
      obtain ⟨h2, hr, hs2⟩ := forEachSubRegion_returns D c
        (fun h2 sub => Region.setCanvas fuel h2 sub c) fuel ih
        (h self).sub_regions_ (h.set self { h self with canvas_ := c }) hD1 hsubs (by omega)
      refine ⟨h2, ?_, CanvasSpread.step hc hs2⟩
      simp only [Region.setCanvas, hc, if_false, Heap.set_same]
      exact hr

theorem pending_le_length (D : List Nat) (h : Heap) (c : Option Nat) :
    pending D h c ≤ D.length :=
  List.length_filter_le _ _

/-! ## The two tree mutators, step by step -/

theorem linked_canvas (h : Heap) (self region x : Nat) :
    ((linked h self region) x).canvas_ = (h x).canvas_ := by
  unfold linked Heap.set
  dsimp only
  split_ifs <;> simp_all

theorem linked_sub_regions_self (h : Heap) (self region : Nat) :
    ((linked h self region) self).sub_regions_ = (h self).sub_regions_ ++ [region] := by
  unfold linked Heap.set
  dsimp only
  split_ifs <;> simp_all

theorem linked_sub_regions_other (h : Heap) (self region q : Nat) (hq : q ≠ self) :
    ((linked h self region) q).sub_regions_ = (h q).sub_regions_ := by
  unfold linked Heap.set
  dsimp only
  split_ifs <;> simp_all

theorem linked_parent_region (h : Heap) (self region : Nat) :
    ((linked h self region) region).parent_ = some self := by
  unfold linked Heap.set
  simp

theorem linked_parent_other (h : Heap) (self region r : Nat) (hr : r ≠ region) :
    ((linked h self region) r).parent_ = (h r).parent_ := by
  unfold linked Heap.set
  dsimp only
  split_ifs <;> simp_all

theorem unparented_canvas (h : Heap) (region x : Nat) :
    ((unparented h region) x).canvas_ = (h x).canvas_ := by
  unfold unparented Heap.set
  by_cases h1 : x = region <;> simp [h1]

theorem unparented_sub_regions (h : Heap) (region x : Nat) :
    ((unparented h region) x).sub_regions_ = (h x).sub_regions_ := by
  unfold unparented Heap.set
  by_cases h1 : x = region <;> simp [h1]

theorem unparented_parent_region (h : Heap) (region : Nat) :
    ((unparented h region) region).parent_ = none := by
  unfold unparented Heap.set
  simp

theorem unparented_parent_other (h : Heap) (region r : Nat) (hr : r ≠ region) :
    ((unparented h region) r).parent_ = (h r).parent_ := by
  unfold unparented Heap.set
  simp [hr]

/-- A call of `addRegion` whose assertion holds returns; it leaves the linked
heap as it is when the receiver has no canvas, and spreads the canvas of the
receiver from the new child otherwise. -/
theorem addRegion_returns (debug : Bool) (D : List Nat) (fuel : Nat) (h : Heap)
    (self region : Nat) (hD : ChildrenWithin D h) (hr : region ∈ D)
    (hfuel : D.length < fuel) (hpar : (h region).parent_ = none) :
    ∃ h3, Region.addRegion debug fuel h self region = .ok h3 ∧
      (((h self).canvas_ = none ∧ h3 = linked h self region) ∨
        ∃ k, (h self).canvas_ = some k ∧
          CanvasSpread (linked h self region) (some k) [region] h3) := by
  have hstart : Region.addRegion debug fuel h self region =
      (match ((linked h self region) self).canvas_ with
        | some canvas => Region.setCanvas fuel (linked h self region) region (some canvas)
        | none => .ok (linked h self region)) := by
    cases debug <;> simp [Region.addRegion, VISAGE_ASSERT, debugAssert, hpar, Exec.bind, linked]
  rw [hstart, linked_canvas]
  cases hk : (h self).canvas_ with
  | none => exact ⟨_, rfl, Or.inl ⟨rfl, rfl⟩⟩
  | some k =>
    have hD2 : ChildrenWithin D (linked h self region) := by
      intro q r hq
      by_cases hqs : q = self
      · subst hqs
        rw [linked_sub_regions_self] at hq
        rcases List.mem_append.mp hq with e | e
        · exact hD q r e
        · rw [List.mem_singleton] at e; rw [e]; exact hr
      · rw [linked_sub_regions_other h self region q hqs] at hq
        exact hD q r hq
    obtain ⟨h3, hrun, hs⟩ := setCanvas_returns D (some k) fuel (linked h self region) region
      hD2 hr (Nat.lt_of_le_of_lt (pending_le_length D _ _) hfuel)
    exact ⟨h3, hrun, Or.inr ⟨k, rfl, hs⟩⟩

/-- A call of `removeRegion` on a current child returns: it spreads the null
canvas from the child in the unparented heap and then erases the child from
the child sequence of the receiver. -/
theorem removeRegion_returns (D : List Nat) (fuel : Nat) (h : Heap) (self region : Nat)
    (hD : ChildrenWithin D h) (hfuel : D.length < fuel)
    (hmem : region ∈ (h self).sub_regions_) :
    ∃ h2, CanvasSpread (unparented h region) none [region] h2 ∧
      Region.removeRegion fuel h self region =
        .ok (h2.set self { h2 self with
          sub_regions_ := (h self).sub_regions_.erase region }) := by
  have hD1 : ChildrenWithin D (unparented h region) := by
    intro q r hq
    rw [unparented_sub_regions] at hq
    exact hD q r hq
  obtain ⟨h2, hrun, hs⟩ := setCanvas_returns D none fuel (unparented h region) region
    hD1 (hD self region hmem) (Nat.lt_of_le_of_lt (pending_le_length D _ _) hfuel)
  refine ⟨h2, hs, ?_⟩
  have hsub : (h2 self).sub_regions_ = (h self).sub_regions_ := by
    rw [hs.sub_regions_eq, unparented_sub_regions]
  have hrun1 : Region.setCanvas fuel (h.set region { h region with parent_ := none })
      region none = .ok h2 := hrun
  simp only [Region.removeRegion, hrun1, Exec.bind, hsub, hmem, if_true]

theorem set_sub_regions_canvas (h : Heap) (self x : Nat) (l : List Nat) :
    ((h.set self { h self with sub_regions_ := l }) x).canvas_ = (h x).canvas_ := by
  unfold Heap.set
  dsimp only
  split_ifs <;> simp_all

theorem set_sub_regions_parent (h : Heap) (self x : Nat) (l : List Nat) :
    ((h.set self { h self with sub_regions_ := l }) x).parent_ = (h x).parent_ := by
  unfold Heap.set
  dsimp only
  split_ifs <;> simp_all

theorem set_sub_regions_self (h : Heap) (self : Nat) (l : List Nat) :
    ((h.set self { h self with sub_regions_ := l }) self).sub_regions_ = l := by
  unfold Heap.set
  simp

theorem set_sub_regions_other (h : Heap) (self x : Nat) (l : List Nat) (hx : x ≠ self) :
    ((h.set self { h self with sub_regions_ := l }) x).sub_regions_ = (h x).sub_regions_ := by
  unfold Heap.set
  simp [hx]

/-- Away from the root `e` of a spread, regions keep agreeing with their
parents, and regions without a parent keep their canvas reference. -/
theorem CanvasSpread.pairs {h h1 : Heap} {k : Option Nat} {e : Nat}
    (hs : CanvasSpread h k [e] h1)
    (hA : ∀ q r, r ≠ e → r ∈ (h q).sub_regions_ → (h r).parent_ = some q)
    (hB : ∀ q r, r ≠ e → (h r).parent_ = some q → r ∈ (h q).sub_regions_)
    (hC : ∀ q r, r ≠ e → (h r).parent_ = some q → (h r).canvas_ = (h q).canvas_) :
    (∀ q r, r ≠ e → (h r).parent_ = some q → (h1 r).canvas_ = (h1 q).canvas_) ∧
    (∀ r, r ≠ e → (h r).parent_ = none → (h1 r).canvas_ = (h r).canvas_) := by
  constructor
  · intro q r hre hpar
    by_cases hq : (h1 q).canvas_ = (h q).canvas_
    · by_cases hr : (h1 r).canvas_ = (h r).canvas_
      · rw [hr, hq]; exact hC q r hre hpar
      · rcases hs.origin r hr with h2 | ⟨q1, h3, h4⟩
        · rw [List.mem_singleton] at h2; exact absurd h2 hre
        · have h5 := hA q1 r hre h4
          rw [hpar] at h5
          have h6 : q = q1 := Option.some.inj h5
          subst h6
          exact absurd hq h3
    · rw [hs.children q r hq (hB q r hre hpar), hs.changed_new q hq]
  · intro r hre hpar
    by_contra hr
    rcases hs.origin r hr with h2 | ⟨q1, _, h4⟩
    · rw [List.mem_singleton] at h2; exact hre h2
    · have h5 := hA q1 r hre h4
      rw [hpar] at h5
      cases h5

theorem TreeInv.through_spread {D : List Nat} {h h1 : Heap} {c : Option Nat} {roots : List Nat}
    (hT : TreeInv D h) (hs : CanvasSpread h c roots h1) : TreeInv D h1 where
  child_parent := fun q r hr => by
    rw [hs.sub_regions_eq q] at hr
    rw [hs.parent_eq r]
    exact hT.child_parent q r hr
  parent_child := fun q r hr => by
    rw [hs.parent_eq r] at hr
    rw [hs.sub_regions_eq q]
    exact hT.parent_child q r hr
  nodup := fun q => by
    rw [hs.sub_regions_eq q]
    exact hT.nodup q
  within := hT.within.across_spread hs

theorem TreeInv.of_linked {D : List Nat} {h : Heap} {self region : Nat}
    (hT : TreeInv D h) (hr : region ∈ D) (hpar : (h region).parent_ = none) :
    TreeInv D (linked h self region) := by
  have hnot : ∀ q, region ∉ (h q).sub_regions_ := by
    intro q hq
    have := hT.child_parent q region hq
    rw [hpar] at this
    cases this
  refine ⟨?_, ?_, ?_, ?_⟩
  · intro q r hq
    by_cases hrr : r = region
    · subst hrr
      by_cases hqs : q = self
      · rw [hqs]; exact linked_parent_region h self r
      · rw [linked_sub_regions_other h self r q hqs] at hq
        exact absurd hq (hnot q)
    · rw [linked_parent_other h self region r hrr]
      by_cases hqs : q = self
      · subst hqs
        rw [linked_sub_regions_self] at hq
        rcases List.mem_append.mp hq with e | e
        · exact hT.child_parent q r e
        · rw [List.mem_singleton] at e; exact absurd e hrr
      · rw [linked_sub_regions_other h self region q hqs] at hq
        exact hT.child_parent q r hq
  · intro q r hq
    by_cases hrr : r = region
    · subst hrr
      rw [linked_parent_region] at hq
      have h1 : self = q := Option.some.inj hq
      subst h1
      rw [linked_sub_regions_self]
      exact List.mem_append_right _ (List.mem_singleton_self r)
    · rw [linked_parent_other h self region r hrr] at hq
      have h1 := hT.parent_child q r hq
      by_cases hqs : q = self
      · subst hqs
        rw [linked_sub_regions_self]
        exact List.mem_append_left _ h1
      · rw [linked_sub_regions_other h self region q hqs]
        exact h1
  · intro q
    by_cases hqs : q = self
    · subst hqs
      rw [linked_sub_regions_self]
      refine List.Nodup.append (hT.nodup q) (List.nodup_singleton region) ?_
      intro a ha hb
      rw [List.mem_singleton] at hb
      rw [hb] at ha
      exact hnot q ha
    · rw [linked_sub_regions_other h self region q hqs]
      exact hT.nodup q
  · intro q r hq
    by_cases hqs : q = self
    · subst hqs
      rw [linked_sub_regions_self] at hq
      rcases List.mem_append.mp hq with e | e
      · exact hT.within q r e
      · rw [List.mem_singleton] at e; rw [e]; exact hr
    · rw [linked_sub_regions_other h self region q hqs] at hq
      exact hT.within q r hq

/-- Preservation: `addRegion` keeps the tree invariants when the child has no parent and
is not handed, with a canvas of its own, to a receiver without canvas. -/
theorem addRegion_preserves (debug : Bool) (D : List Nat) (fuel : Nat) (h0 h : Heap)
    (self region : Nat) (hT : TreeInv D h) (hC : CanvasInv h) (hR : RootInv h0 h)
    (hr : region ∈ D) (hfuel : D.length < fuel) (hpar : (h region).parent_ = none)
    (hcompat : (h self).canvas_ = none → (h region).canvas_ = none) :
    ∃ h3, Region.addRegion debug fuel h self region = .ok h3 ∧
      TreeInv D h3 ∧ CanvasInv h3 ∧ RootInv h0 h3 := by
  obtain ⟨h3, hrun, hcase⟩ :=
    addRegion_returns debug D fuel h self region hT.within hr hfuel hpar
  have hTL : TreeInv D (linked h self region) := hT.of_linked hr hpar
  refine ⟨h3, hrun, ?_⟩
  rcases hcase with ⟨hnone, rfl⟩ | ⟨k, hk, hs⟩
  · refine ⟨hTL, ?_, ?_⟩
    · intro q r hq
      rw [linked_canvas, linked_canvas]
      by_cases hrr : r = region
      · subst hrr
        rw [linked_parent_region] at hq
        have h1 : self = q := Option.some.inj hq
        subst h1
        rw [hnone, hcompat hnone]
      · rw [linked_parent_other h self region r hrr] at hq
        exact hC q r hq
    · intro r hq
      rw [linked_canvas]
      by_cases hrr : r = region
      · subst hrr
        rw [linked_parent_region] at hq
        cases hq
      · rw [linked_parent_other h self region r hrr] at hq
        exact hR r hq
  · have hp := hs.pairs
      (fun q r _ hq => hTL.child_parent q r hq)
      (fun q r _ hq => hTL.parent_child q r hq)
      (fun q r hre hq => by
        rw [linked_canvas, linked_canvas]
        rw [linked_parent_other h self region r hre] at hq
        exact hC q r hq)
    refine ⟨hTL.through_spread hs, ?_, ?_⟩
    · intro q r hq
      rw [hs.parent_eq r] at hq
      by_cases hrr : r = region
      · subst hrr
        rw [linked_parent_region] at hq
        have h1 : self = q := Option.some.inj hq
        subst h1
        rw [hs.roots_set r (List.mem_singleton_self r)]
        exact (hs.keeps self (by rw [linked_canvas]; exact hk)).symm
      · exact hp.1 q r hrr hq
    · intro r hq
      rw [hs.parent_eq r] at hq
      by_cases hrr : r = region
      · subst hrr
        rw [linked_parent_region] at hq
        cases hq
      · rw [hp.2 r hrr hq, linked_canvas]
        rw [linked_parent_other h self region r hrr] at hq
        exact hR r hq

theorem TreeInv.of_removed {D : List Nat} {h h2 : Heap} {self region : Nat}
    (hT : TreeInv D h) (hs : CanvasSpread (unparented h region) none [region] h2)
    (hmem : region ∈ (h self).sub_regions_) :
    TreeInv D (h2.set self { h2 self with
      sub_regions_ := (h self).sub_regions_.erase region }) := by
  have hparent : (h region).parent_ = some self := hT.child_parent self region hmem
  have hsub2 : ∀ q, (h2 q).sub_regions_ = (h q).sub_regions_ := by
    intro q
    rw [hs.sub_regions_eq, unparented_sub_regions]
  have hpar2 : ∀ r, r ≠ region → (h2 r).parent_ = (h r).parent_ := by
    intro r hr
    rw [hs.parent_eq, unparented_parent_other h region r hr]
  have hpar2r : (h2 region).parent_ = none := by
    rw [hs.parent_eq, unparented_parent_region]
  refine ⟨?_, ?_, ?_, ?_⟩
  · intro q r hq
    rw [set_sub_regions_parent]
    by_cases hqs : q = self
    · subst hqs
      rw [set_sub_regions_self] at hq
      have hne : r ≠ region := fun e => by
        rw [e] at hq
        exact (List.Nodup.mem_erase_iff (hT.nodup q)).mp hq |>.1 rfl
      rw [hpar2 r hne]
      exact hT.child_parent q r (List.mem_of_mem_erase hq)
    · rw [set_sub_regions_other h2 self q _ hqs, hsub2] at hq
      have h1 := hT.child_parent q r hq
      have hne : r ≠ region := fun e => by
        rw [e, hparent] at h1
        exact hqs (Option.some.inj h1).symm
      rw [hpar2 r hne]
      exact h1
  · intro q r hq
    rw [set_sub_regions_parent] at hq
    have hne : r ≠ region := fun e => by
      rw [e, hpar2r] at hq
      cases hq
    rw [hpar2 r hne] at hq
    have h1 := hT.parent_child q r hq
    by_cases hqs : q = self
    · subst hqs
      rw [set_sub_regions_self]
      exact (List.mem_erase_of_ne hne).mpr h1
    · rw [set_sub_regions_other h2 self q _ hqs, hsub2]
      exact h1
  · intro q
    by_cases hqs : q = self
    · subst hqs
      rw [set_sub_regions_self]
      exact (hT.nodup q).erase region
    · rw [set_sub_regions_other h2 self q _ hqs, hsub2]
      exact hT.nodup q
  · intro q r hq
    by_cases hqs : q = self
    · subst hqs
      rw [set_sub_regions_self] at hq
      exact hT.within q r (List.mem_of_mem_erase hq)
    · rw [set_sub_regions_other h2 self q _ hqs, hsub2] at hq
      exact hT.within q r hq

/-- Preservation: `removeRegion` of a current child keeps the tree invariants. -/
theorem removeRegion_preserves (D : List Nat) (fuel : Nat) (h0 h : Heap)
    (self region : Nat) (hT : TreeInv D h) (hC : CanvasInv h) (hR : RootInv h0 h)
    (hfuel : D.length < fuel) (hmem : region ∈ (h self).sub_regions_) :
    ∃ h3, Region.removeRegion fuel h self region = .ok h3 ∧
      TreeInv D h3 ∧ CanvasInv h3 ∧ RootInv h0 h3 := by
  obtain ⟨h2, hs, hrun⟩ := removeRegion_returns D fuel h self region hT.within hfuel hmem
  refine ⟨_, hrun, ?_⟩
  have hparent : (h region).parent_ = some self := hT.child_parent self region hmem
  have hsub2 : ∀ q, (h2 q).sub_regions_ = (h q).sub_regions_ := by
    intro q
    rw [hs.sub_regions_eq, unparented_sub_regions]
  have hpar2 : ∀ r, r ≠ region → (h2 r).parent_ = (h r).parent_ := by
    intro r hr
    rw [hs.parent_eq, unparented_parent_other h region r hr]
  have hpar2r : (h2 region).parent_ = none := by
    rw [hs.parent_eq, unparented_parent_region]
  have hp := hs.pairs
    (fun q r hre hq => by
      rw [unparented_sub_regions] at hq
      rw [unparented_parent_other h region r hre]
      exact hT.child_parent q r hq)
    (fun q r hre hq => by
      rw [unparented_parent_other h region r hre] at hq
      rw [unparented_sub_regions]
      exact hT.parent_child q r hq)
    (fun q r hre hq => by
      rw [unparented_parent_other h region r hre] at hq
      rw [unparented_canvas, unparented_canvas]
      exact hC q r hq)
  refine ⟨hT.of_removed hs hmem, ?_, ?_⟩
  · intro q r hq
    rw [set_sub_regions_parent] at hq
    rw [set_sub_regions_canvas, set_sub_regions_canvas]
    have hne : r ≠ region := fun e => by
      rw [e, hpar2r] at hq
      cases hq
    refine hp.1 q r hne ?_
    rw [unparented_parent_other h region r hne, ← hpar2 r hne]
    exact hq
  · intro r hq
    rw [set_sub_regions_parent] at hq
    rw [set_sub_regions_canvas]
    by_cases hrr : r = region
    · subst hrr
      exact Or.inl (hs.roots_set r (List.mem_singleton_self r))
    · rw [hpar2 r hrr] at hq
      rw [hp.2 r hrr (by rw [unparented_parent_other h region r hrr]; exact hq),
        unparented_canvas]
      exact hR r hq

/-! ## Sequences of tree mutations -/

theorem runCalls_cons_ok (debug : Bool) (fuel : Nat) (h h1 : Heap) (c : TreeCall)
    (cs : List TreeCall) (hc : c.run debug fuel h = .ok h1) :
    runCalls debug fuel h (c :: cs) = runCalls debug fuel h1 cs := by
  simp [runCalls, List.foldl_cons, Exec.bind, hc]

theorem CallsMeet.take {pre : Heap → TreeCall → Prop} {debug : Bool} {fuel : Nat} :
    ∀ (calls : List TreeCall) (h : Heap) (n : Nat),
      CallsMeet pre debug fuel h calls → CallsMeet pre debug fuel h (calls.take n) := by
  intro calls
  induction calls with
  | nil =>
    intro h n _
    simp [CallsMeet]
  | cons c cs ih =>
    intro h n hm
    cases n with
    | zero => simp [CallsMeet]
    | succ n =>
      rw [List.take_succ_cons]
      exact ⟨hm.1, fun h1 e => ih h1 n (hm.2 h1 e)⟩

/-- A sequence of calls that meet their preconditions runs to its end and
keeps the tree invariants. -/
theorem runCalls_preserves (debug : Bool) (D : List Nat) (fuel : Nat) (h0 : Heap)
    (hfuel : D.length < fuel) :
    ∀ (calls : List TreeCall) (h : Heap), TreeInv D h → CanvasInv h → RootInv h0 h →
      (∀ c, c ∈ calls → c.within D) →
      CallsMeet (fun h c => c.pre h ∧ c.canvasCompatible h) debug fuel h calls →
      ∃ h1, runCalls debug fuel h calls = .ok h1 ∧ TreeInv D h1 ∧ CanvasInv h1 ∧ RootInv h0 h1 := by
  intro calls
  induction calls with
  | nil =>
    intro h hT hC hR _ _
    exact ⟨h, rfl, hT, hC, hR⟩
  | cons c cs ih =>
    intro h hT hC hR hD hm
    have hstep : ∃ h1, c.run debug fuel h = .ok h1 ∧ TreeInv D h1 ∧ CanvasInv h1 ∧
        RootInv h0 h1 := by
      cases c with
      | addRegion self region =>
        exact addRegion_preserves debug D fuel h0 h self region hT hC hR
          (hD _ (List.mem_cons_self _ _)).2 hfuel hm.1.1 hm.1.2
      | removeRegion self region =>
        exact removeRegion_preserves D fuel h0 h self region hT hC hR hfuel hm.1.1
    obtain ⟨h1, hrun, hT1, hC1, hR1⟩ := hstep
    obtain ⟨h2, hrun2, hinv⟩ := ih h1 hT1 hC1 hR1
      (fun x hx => hD x (List.mem_cons_of_mem c hx)) (hm.2 h1 hrun)
    exact ⟨h2, by rw [runCalls_cons_ok debug fuel h h1 c cs hrun]; exact hrun2, hinv⟩

theorem Unattached.treeInv {h : Heap} (hu : Unattached h) (D : List Nat) : TreeInv D h where
  child_parent := fun q r hr => by
    rw [(hu q).2] at hr
    exact absurd hr (List.not_mem_nil r)
  parent_child := fun q r hr => by
    rw [(hu r).1] at hr
    cases hr
  nodup := fun q => by
    rw [(hu q).2]
    exact List.nodup_nil
  within := fun q r hr => by
    rw [(hu q).2] at hr
    exact absurd hr (List.not_mem_nil r)

/-! ## Claims on the region tree -/

/-- C1 (as stated, refuted). Region `1` has no parent and holds canvas `7`,
region `0` holds no canvas. `addRegion` on `0` with child `1` meets its
precondition and returns, and afterwards region `1` has parent `0` but still
holds canvas `7`, while its parent holds none. -/
theorem canvas_back_reference_not_propagated :
    Unattached heapChildHasCanvas ∧
    TreeCall.pre heapChildHasCanvas (.addRegion 0 1) ∧
    (runCalls true 3 heapChildHasCanvas [.addRegion 0 1]).returned.map
      (fun h => ((h 1).parent_, (h 1).canvas_, (h 0).canvas_)) = some (some 0, some 7, none) := by
  refine ⟨?_, rfl, rfl⟩
  intro r
  unfold heapChildHasCanvas
  split <;> exact ⟨rfl, rfl⟩

/-- C1 (amended). Start from regions none of which has a parent or a child,
and make any sequence of `addRegion` / `removeRegion` calls on allocated
regions in which every call meets its precondition (the added child has no
parent; the removed child is a current child of the receiver) and in which a
child added to a receiver without canvas reference holds none itself. Then
every call returns, and after each call (after the first `n` calls, for every
`n`) every region that has a parent holds the same canvas reference as its
parent, and a region without parent holds a null canvas reference or the one
it held at the start. -/
theorem canvas_back_reference_propagation (debug : Bool) (D : List Nat) (fuel : Nat)
    (h0 : Heap) (calls : List TreeCall) (n : Nat)
    (hfuel : D.length < fuel) (hinit : Unattached h0)
    (hD : ∀ c, c ∈ calls → c.within D)
    (hpre : CallsMeet (fun h c => c.pre h ∧ c.canvasCompatible h) debug fuel h0 calls) :
    ∃ h1, runCalls debug fuel h0 (calls.take n) = .ok h1 ∧
      (∀ q r, (h1 r).parent_ = some q → (h1 r).canvas_ = (h1 q).canvas_) ∧
      (∀ r, (h1 r).parent_ = none →
        (h1 r).canvas_ = none ∨ (h1 r).canvas_ = (h0 r).canvas_) := by
  obtain ⟨h1, hrun, _, hC, hR⟩ := runCalls_preserves debug D fuel h0 hfuel (calls.take n) h0
    (hinit.treeInv D) (fun q r hr => by rw [(hinit r).1] at hr; cases hr)
    (fun r _ => Or.inr rfl)
    (fun c hc => hD c (List.mem_of_mem_take hc))
    (CallsMeet.take calls h0 n hpre)
  exact ⟨h1, hrun, hC, hR⟩

theorem heapRootHasCanvas_unattached : Unattached heapRootHasCanvas := by
  intro r
  unfold heapRootHasCanvas
  split <;> exact ⟨rfl, rfl⟩

theorem sampleCalls_meet :
    CallsMeet (fun h c => c.pre h ∧ c.canvasCompatible h) true 4 heapRootHasCanvas
      sampleCalls := by
  refine ⟨⟨rfl, fun e => by cases e⟩, fun h1 e1 => ?_⟩
  obtain rfl := Exec.ok.inj e1
  refine ⟨⟨rfl, fun e => by cases e⟩, fun h2 e2 => ?_⟩
  obtain rfl := Exec.ok.inj e2
  exact ⟨⟨List.mem_singleton_self 1, trivial⟩, fun _ _ => trivial⟩

/-- C1 (amended), at a concrete run: region `0` holds canvas `7`; `1` is
attached under `0`, `2` under `1`, then `1` is detached. -/
theorem canvas_back_reference_propagation_witness :
    Unattached heapRootHasCanvas ∧
    CallsMeet (fun h c => c.pre h ∧ c.canvasCompatible h) true 4 heapRootHasCanvas
      sampleCalls ∧
    ∃ h1, runCalls true 4 heapRootHasCanvas (sampleCalls.take 3) = .ok h1 ∧
      (∀ q r, (h1 r).parent_ = some q → (h1 r).canvas_ = (h1 q).canvas_) ∧
      (∀ r, (h1 r).parent_ = none →
        (h1 r).canvas_ = none ∨ (h1 r).canvas_ = (heapRootHasCanvas r).canvas_) :=
  ⟨heapRootHasCanvas_unattached, sampleCalls_meet,
    canvas_back_reference_propagation true [0, 1, 2] 4 heapRootHasCanvas sampleCalls 3
      (by decide) heapRootHasCanvas_unattached
      (by
        intro c hc
        simp only [sampleCalls, List.mem_cons, List.mem_singleton, List.not_mem_nil,
          or_false] at hc
        rcases hc with rfl | rfl | rfl <;> simp [TreeCall.within])
      sampleCalls_meet⟩

theorem addRegion_tree (debug : Bool) (D : List Nat) (fuel : Nat) (h : Heap)
    (self region : Nat) (hT : TreeInv D h) (hr : region ∈ D) (hfuel : D.length < fuel)
    (hpar : (h region).parent_ = none) :
    ∃ h3, Region.addRegion debug fuel h self region = .ok h3 ∧ TreeInv D h3 ∧
      (h3 self).sub_regions_ = (h self).sub_regions_ ++ [region] ∧
      (h3 region).parent_ = some self := by
  obtain ⟨h3, hrun, hcase⟩ :=
    addRegion_returns debug D fuel h self region hT.within hr hfuel hpar
  have hTL : TreeInv D (linked h self region) := hT.of_linked hr hpar
  refine ⟨h3, hrun, ?_⟩
  rcases hcase with ⟨_, rfl⟩ | ⟨k, _, hs⟩
  · exact ⟨hTL, linked_sub_regions_self h self region, linked_parent_region h self region⟩
  · refine ⟨hTL.through_spread hs, ?_, ?_⟩
    · rw [hs.sub_regions_eq, linked_sub_regions_self]
    · rw [hs.parent_eq, linked_parent_region]

theorem removeRegion_tree (D : List Nat) (fuel : Nat) (h : Heap) (self region : Nat)
    (hT : TreeInv D h) (hfuel : D.length < fuel) (hmem : region ∈ (h self).sub_regions_) :
    ∃ h3, Region.removeRegion fuel h self region = .ok h3 ∧ TreeInv D h3 ∧
      (h3 self).sub_regions_ = (h self).sub_regions_.erase region := by
  obtain ⟨h2, hs, hrun⟩ := removeRegion_returns D fuel h self region hT.within hfuel hmem
  exact ⟨_, hrun, hT.of_removed hs hmem, set_sub_regions_self h2 self _⟩

/-- A sequence of calls that meet their preconditions, up to its last call:
the calls before it return in a heap that satisfies the tree invariant and
the precondition of the last call. -/
theorem runCalls_tree (debug : Bool) (D : List Nat) (fuel : Nat) (c : TreeCall)
    (hfuel : D.length < fuel) :
    ∀ (calls : List TreeCall) (h : Heap), TreeInv D h →
      (∀ x, x ∈ calls → x.within D) →
      CallsMeet (fun h x => x.pre h) debug fuel h (calls ++ [c]) →
      ∃ h1, runCalls debug fuel h calls = .ok h1 ∧ TreeInv D h1 ∧ c.pre h1 := by
  intro calls
  induction calls with
  | nil =>
    intro h hT _ hm
    exact ⟨h, rfl, hT, hm.1⟩
  | cons x xs ih =>
    intro h hT hD hm
    have hstep : ∃ h1, x.run debug fuel h = .ok h1 ∧ TreeInv D h1 := by
      cases x with
      | addRegion self region =>
        obtain ⟨h1, hrun, hT1, _⟩ := addRegion_tree debug D fuel h self region hT
          (hD _ (List.mem_cons_self _ _)).2 hfuel hm.1
        exact ⟨h1, hrun, hT1⟩
      | removeRegion self region =>
        obtain ⟨h1, hrun, hT1, _⟩ := removeRegion_tree D fuel h self region hT hfuel hm.1
        exact ⟨h1, hrun, hT1⟩
    obtain ⟨h1, hrun, hT1⟩ := hstep
    obtain ⟨h2, hrun2, hinv⟩ := ih h1 hT1
      (fun y hy => hD y (List.mem_cons_of_mem x hy)) (hm.2 h1 hrun)
    exact ⟨h2, by rw [runCalls_cons_ok debug fuel h h1 x xs hrun]; exact hrun2, hinv⟩

theorem Reaches.mono {h h1 : Heap} {a d : Nat}
    (hsub : ∀ q r, r ∈ (h1 q).sub_regions_ → r ∈ (h q).sub_regions_)
    (hr : Reaches h1 a d) : Reaches h a d := by
  induction hr with
  | self => exact Reaches.self
  | child q r _ hq ih => exact Reaches.child q r ih (hsub q r hq)

/-- C5 (as stated, refuted). Region `1` holds canvas `7`; it is attached
under region `2`, which holds no canvas, and `2` is attached under `0`. Then
`2` is a current child of `0`, and `removeRegion` on `0` with child `2` leaves
`2` without parent and canvas, but its child `1` still holds canvas `7`. -/
theorem removeRegion_leaves_descendant_canvas :
    (runCalls true 4 heapChildHasCanvas [.addRegion 2 1, .addRegion 0 2]).returned.map
      (fun h => ((h 0).sub_regions_, (h 2).sub_regions_)) = some ([2], [1]) ∧
    (((runCalls true 4 heapChildHasCanvas [.addRegion 2 1, .addRegion 0 2]).bind
      (fun h => Region.removeRegion 4 h 0 2)).returned.map
      (fun h => ((h 2).parent_, (h 2).canvas_, (h 2).sub_regions_, (h 1).canvas_)))
      = some (none, none, [1], some 7) :=
  ⟨rfl, rfl⟩

/-- C5 (amended). In a heap whose child sequences name allocated regions,
let `region` be in the child sequence of `self`, and let every region reached
from `region` through child sequences pass its canvas reference on to its
children (each child holds the same canvas reference as the region whose
child sequence it is in). Then `removeRegion` returns, and afterwards the
parent reference of `region` is null and the canvas reference of `region`
and of every descendant of `region` is null. -/
theorem removeRegion_clears_subtree (D : List Nat) (fuel : Nat) (h : Heap)
    (self region : Nat) (hfuel : D.length < fuel) (hD : ChildrenWithin D h)
    (hmem : region ∈ (h self).sub_regions_)
    (huni : ∀ q r, Reaches h region q → r ∈ (h q).sub_regions_ →
      (h r).canvas_ = (h q).canvas_) :
    ∃ h1, Region.removeRegion fuel h self region = .ok h1 ∧
      (h1 region).parent_ = none ∧
      ∀ d, Reaches h1 region d → (h1 d).canvas_ = none := by
  obtain ⟨h2, hs, hrun⟩ := removeRegion_returns D fuel h self region hD hfuel hmem
  refine ⟨_, hrun, ?_, ?_⟩
  · rw [set_sub_regions_parent, hs.parent_eq, unparented_parent_region]
  · intro d hd
    rw [set_sub_regions_canvas]
    have hold : Reaches h region d := by
      refine Reaches.mono ?_ hd
      intro q r hq
      by_cases hqs : q = self
      · subst hqs
        rw [set_sub_regions_self] at hq
        exact List.mem_of_mem_erase hq
      · rw [set_sub_regions_other h2 self q _ hqs, hs.sub_regions_eq,
          unparented_sub_regions] at hq
        exact hq
    clear hd
    induction hold with
    | self => exact hs.roots_set region (List.mem_singleton_self region)
    | child q r hq hr ih =>
      by_cases hch : (h2 q).canvas_ = ((unparented h region) q).canvas_
      · refine hs.keeps r ?_
        rw [unparented_canvas, huni q r hq hr, ← unparented_canvas h region q, ← hch]
        exact ih
      · exact hs.children q r hch (by rw [unparented_sub_regions]; exact hr)

theorem heapChain_within : ChildrenWithin [0, 1, 2] heapChain := by
  intro q r hr
  unfold heapChain at hr
  split_ifs at hr <;> simp_all

theorem heapChain_uniform (q r : Nat) (hr : r ∈ (heapChain q).sub_regions_) :
    (heapChain r).canvas_ = (heapChain q).canvas_ := by
  unfold heapChain at hr
  split_ifs at hr with h0 h1 h2
  · rw [List.mem_singleton] at hr; subst hr; subst h0; rfl
  · rw [List.mem_singleton] at hr; subst hr; subst h1; rfl
  · exact absurd hr (List.not_mem_nil r)
  · exact absurd hr (List.not_mem_nil r)

/-- C5 (amended), at a concrete heap: the chain `0 → 1 → 2` with canvas `7`
everywhere, from which `1` is removed. -/
theorem removeRegion_clears_subtree_witness :
    (1 ∈ (heapChain 0).sub_regions_) ∧
    ∃ h1, Region.removeRegion 4 heapChain 0 1 = .ok h1 ∧
      (h1 1).parent_ = none ∧
      ∀ d, Reaches h1 1 d → (h1 d).canvas_ = none :=
  ⟨List.mem_singleton_self 1,
    removeRegion_clears_subtree [0, 1, 2] 4 heapChain 0 1 (by decide) heapChain_within
      (List.mem_singleton_self 1) (fun q r _ hr => heapChain_uniform q r hr)⟩

/-- C6. In a debug build, `addRegion` with a child that already has a parent
(whichever region that parent is, the receiver included) is halted by the
failed assertion in the heap it was called in: the child sequence of the
receiver and the parent and canvas references of the child are those from
before the call. -/
theorem addRegion_parented_child_asserts (fuel : Nat) (h : Heap) (self region : Nat)
    (hpar : (h region).parent_ ≠ none) :
    Region.addRegion true fuel h self region = .assertFailed h := by
  simp [Region.addRegion, VISAGE_ASSERT, debugAssert, hpar, Exec.bind]

/-- C6, at a concrete heap: in the chain `0 → 1 → 2`, region `1` is added
again to its own parent `0`. -/
theorem addRegion_parented_child_asserts_witness :
    (heapChain 1).parent_ ≠ none ∧
    Region.addRegion true 4 heapChain 0 1 = .assertFailed heapChain :=
  ⟨by decide, addRegion_parented_child_asserts 4 heapChain 0 1 (by decide)⟩

/-- C7. Start from regions none of which has a parent or a child and make
any sequence of `addRegion` / `removeRegion` calls on allocated regions in
which every call meets its precondition. Then every call returns, and the
last call `c` of the sequence, made in heap `h`, returns in a heap `h1` where
the child sequence of its receiver is the one the specification prescribes:
for `addRegion` the previous sequence with the child appended as last element,
with the parent reference of the child set to the receiver; for `removeRegion`
the previous sequence without that child, all other children in their
previous order. -/
theorem child_order_is_insertion_order (debug : Bool) (D : List Nat) (fuel : Nat)
    (h0 : Heap) (calls : List TreeCall) (c : TreeCall)
    (hfuel : D.length < fuel) (hinit : Unattached h0)
    (hD : ∀ x, x ∈ calls ++ [c] → x.within D)
    (hpre : CallsMeet (fun h x => x.pre h) debug fuel h0 (calls ++ [c])) :
    ∃ h h1, runCalls debug fuel h0 calls = .ok h ∧ c.run debug fuel h = .ok h1 ∧
      (h1 c.receiver).sub_regions_ = childrenAfter (h c.receiver).sub_regions_ c ∧
      (∀ self region, c = .addRegion self region → (h1 region).parent_ = some self) ∧
      (∀ self region, c = .removeRegion self region → region ∉ (h1 self).sub_regions_) := by
  obtain ⟨h, hrun, hT, hc⟩ := runCalls_tree debug D fuel c hfuel calls h0 (hinit.treeInv D)
    (fun x hx => hD x (List.mem_append_left _ hx)) hpre
  have hcD := hD c (List.mem_append_right _ (List.mem_singleton_self c))
  cases c with
  | addRegion self region =>
    obtain ⟨h1, hrun1, _, hsub, hparent⟩ :=
      addRegion_tree debug D fuel h self region hT hcD.2 hfuel hc
    refine ⟨h, h1, hrun, hrun1, hsub, ?_, ?_⟩
    · intro s r e
      cases e
      exact hparent
    · intro s r e
      cases e
  | removeRegion self region =>
    obtain ⟨h1, hrun1, _, hsub⟩ := removeRegion_tree D fuel h self region hT hfuel hc
    refine ⟨h, h1, hrun, hrun1, ?_, ?_, ?_⟩
    · show (h1 self).sub_regions_ = (h self).sub_regions_.filter (fun x => x != region)
      rw [hsub]
      exact (hT.nodup self).erase_eq_filter region
    · intro s r e
      cases e
    · intro s r e
      cases e
      rw [hsub]
      exact fun hm => ((hT.nodup self).mem_erase_iff.mp hm).1 rfl

theorem sampleCalls_meet_pre :
    CallsMeet (fun h x => x.pre h) true 4 heapRootHasCanvas
      ([.addRegion 0 1, .addRegion 0 2] ++ [.removeRegion 0 1]) := by
  refine ⟨rfl, fun h1 e1 => ?_⟩
  obtain rfl := Exec.ok.inj e1
  refine ⟨rfl, fun h2 e2 => ?_⟩
  obtain rfl := Exec.ok.inj e2
  exact ⟨List.mem_cons_self 1 [2], fun _ _ => trivial⟩

/-- C7, at a concrete run: `1` and `2` are added to `0`, then `1` is removed;
the last call turns the child sequence `[1, 2]` into `[2]`. -/
theorem child_order_is_insertion_order_witness :
    Unattached heapRootHasCanvas ∧
    CallsMeet (fun h x => x.pre h) true 4 heapRootHasCanvas
      ([.addRegion 0 1, .addRegion 0 2] ++ [.removeRegion 0 1]) ∧
    ∃ h h1, runCalls true 4 heapRootHasCanvas [.addRegion 0 1, .addRegion 0 2] = .ok h ∧
      (TreeCall.removeRegion 0 1).run true 4 h = .ok h1 ∧
      (h1 (TreeCall.removeRegion 0 1).receiver).sub_regions_ =
        childrenAfter (h (TreeCall.removeRegion 0 1).receiver).sub_regions_
          (TreeCall.removeRegion 0 1) ∧
      (∀ self region, TreeCall.removeRegion 0 1 = .addRegion self region →
        (h1 region).parent_ = some self) ∧
      (∀ self region, TreeCall.removeRegion 0 1 = .removeRegion self region →
        region ∉ (h1 self).sub_regions_) :=
  ⟨heapRootHasCanvas_unattached, sampleCalls_meet_pre,
    child_order_is_insertion_order true [0, 1, 2] 4 heapRootHasCanvas
      [.addRegion 0 1, .addRegion 0 2] (.removeRegion 0 1) (by decide)
      heapRootHasCanvas_unattached
      (by
        intro c hc
        simp only [List.cons_append, List.nil_append, List.mem_cons, List.mem_singleton,
          List.not_mem_nil, or_false] at hc
        rcases hc with rfl | rfl | rfl <;> simp [TreeCall.within])
      sampleCalls_meet_pre⟩

/-! ## Claims on region geometry and layers -/

/-- C4. `setBounds(x, y, w, h)` first issues `invalidateRect({0, 0, oldWidth,
oldHeight})` if and only if the old width and height are both positive, then
the geometry members are `x, y, w, h`, then (after `setupIntermediateRegion`)
it issues `invalidateRect({0, 0, w, h})` if and only if `w` and `h` are both
positive; so the rectangles reported are the old footprint and the new one,
each exactly when it is non-empty, in this order. -/
theorem setBounds_invalidates_before_and_after (r : Region) (x y w h : Int) :
    (r.setBounds x y w h).1 = { r with x_ := x, y_ := y, width_ := w, height_ := h } ∧
    (r.setBounds x y w h).2 =
      (if 0 < r.width_ ∧ 0 < r.height_
        then [RegionCall.invalidateRect ⟨0, 0, r.width_, r.height_⟩] else []) ++
      [RegionCall.setupIntermediateRegion] ++
      (if 0 < w ∧ 0 < h then [RegionCall.invalidateRect ⟨0, 0, w, h⟩] else []) ∧
    invalidatedRects (r.setBounds x y w h).2 =
      (if 0 < r.width_ ∧ 0 < r.height_ then [⟨0, 0, r.width_, r.height_⟩] else []) ++
      (if 0 < w ∧ 0 < h then [⟨0, 0, w, h⟩] else []) := by
  refine ⟨rfl, rfl, ?_⟩
  unfold Region.setBounds Region.invalidate
  by_cases h1 : 0 < r.width_ ∧ 0 < r.height_ <;> by_cases h2 : 0 < w ∧ 0 < h <;>
    simp [h1, h2, invalidatedRects]

/-- C2. `setDimensions` with the current width and height returns the layer
as it is (pending invalidated rectangles untouched, render target not
destroyed); with different dimensions `(w, h)` it sets width and height to
`(w, h)`, destroys the render target and makes the pending invalidated set
exactly the one rectangle `(0, 0, w, h)`, whatever was pending; no other
member changes. -/
theorem setDimensions_noop_or_full_invalidation (l : Layer) (w h : Int)
    (hne : ¬(w = l.width_ ∧ h = l.height_)) :
    l.setDimensions l.width_ l.height_ = l ∧
    (l.setDimensions w h).width_ = w ∧
    (l.setDimensions w h).height_ = h ∧
    (l.setDimensions w h).frame_buffer_data_.destroyed = true ∧
    (l.setDimensions w h).invalid_rects_ = [⟨0, 0, w, h⟩] ∧
    l.setDimensions w h = { l with
      width_ := w, height_ := h, frame_buffer_data_ := { destroyed := true },
      invalid_rects_ := [⟨0, 0, w, h⟩] } := by
  refine ⟨?_, ?_, ?_, ?_, ?_, ?_⟩ <;>
    simp [Layer.setDimensions, hne, Layer.destroyFrameBuffer, Layer.invalidate]

/-- C2, at a concrete layer: a 10 by 20 layer with a pending rectangle is
resized to 30 by 20. -/
theorem setDimensions_noop_or_full_invalidation_witness :
    ¬((30 : Int) = ({ sampleLayer with invalid_rects_ := [⟨1, 1, 2, 2⟩] } : Layer).width_ ∧
      (20 : Int) = ({ sampleLayer with invalid_rects_ := [⟨1, 1, 2, 2⟩] } : Layer).height_) ∧
    (({ sampleLayer with invalid_rects_ := [⟨1, 1, 2, 2⟩] } : Layer).setDimensions 30 20).invalid_rects_
      = [⟨0, 0, 30, 20⟩] :=
  ⟨by decide,
    (setDimensions_noop_or_full_invalidation
      { sampleLayer with invalid_rects_ := [⟨1, 1, 2, 2⟩] } 30 20 (by decide)).2.2.2.2.1⟩

/-- C9 (as stated, refuted). On a 10 by 20 layer with nothing pending,
`setHdr`, `removeFromWindow` and `pairToWindow` with the current dimensions
all destroy the render target but leave the pending invalidated set empty:
no full-area rectangle is added. -/
theorem layer_mode_changes_do_not_invalidate :
    (sampleLayer.setHdr true).invalid_rects_ = [] ∧
    (sampleLayer.setHdr true).frame_buffer_data_.destroyed = true ∧
    sampleLayer.removeFromWindow.invalid_rects_ = [] ∧
    (sampleLayer.pairToWindow (some 1) 10 20).invalid_rects_ = [] ∧
    ((sampleLayer.pairToWindow (some 1) 10 20).width_,
      (sampleLayer.pairToWindow (some 1) 10 20).height_) = (10, 20) := by
  decide

/-- C9 (amended). `setHdr`, `pairToWindow` and `removeFromWindow` each destroy
the render target. `setHdr` and `removeFromWindow` leave the pending
invalidated set as it was; `pairToWindow(handle, w, h)` leaves it as it was
when `(w, h)` are the current dimensions and makes it exactly the full-area
rectangle `(0, 0, w, h)` when they differ, the layer then being `w` by `h`. -/
theorem layer_mode_changes_destroy_target (l : Layer) (hdr : Bool) (handle : Option Nat)
    (w h : Int) :
    (l.setHdr hdr).frame_buffer_data_.destroyed = true ∧
    (l.setHdr hdr).invalid_rects_ = l.invalid_rects_ ∧
    l.removeFromWindow.frame_buffer_data_.destroyed = true ∧
    l.removeFromWindow.invalid_rects_ = l.invalid_rects_ ∧
    (l.pairToWindow handle w h).frame_buffer_data_.destroyed = true ∧
    (l.pairToWindow handle w h).width_ = w ∧
    (l.pairToWindow handle w h).height_ = h ∧
    (l.pairToWindow handle w h).invalid_rects_ =
      (if w = l.width_ ∧ h = l.height_ then l.invalid_rects_ else [⟨0, 0, w, h⟩]) := by
  by_cases hd : w = l.width_ ∧ h = l.height_
  · obtain ⟨hw, hh⟩ := hd
    simp [Layer.setHdr, Layer.removeFromWindow, Layer.pairToWindow, Layer.setDimensions,
      Layer.destroyFrameBuffer, Layer.invalidate, hw, hh]
  · simp [Layer.setHdr, Layer.removeFromWindow, Layer.pairToWindow, Layer.setDimensions,
      Layer.destroyFrameBuffer, Layer.invalidate, hd]

/-! ## Claims on the canvas draw state -/

theorem runCanvas_cons_ok (debug : Bool) (c c1 : Canvas) (call : CanvasCall)
    (rest : List CanvasCall) (hc : call.run debug c = .ok c1) :
    runCanvas debug c (call :: rest) = runCanvas debug c1 rest := by
  simp [runCanvas, List.foldl_cons, Exec.bind, hc]

theorem runCanvas_append_ok (debug : Bool) (c c1 : Canvas) (a b : List CanvasCall)
    (hc : runCanvas debug c a = .ok c1) :
    runCanvas debug c (a ++ b) = runCanvas debug c1 b := by
  unfold runCanvas at hc ⊢
  rw [List.foldl_append, hc]

/-- A state-only call returns; it leaves the saved states in place and puts
the current state on top of them when it is `saveState`. -/
theorem CanvasCall.run_stateOnly (debug : Bool) (c : Canvas) (call : CanvasCall)
    (hs : call.stateOnly = true) :
    ∃ c1, call.run debug c = .ok c1 ∧
      c1.state_memory_ = c.state_memory_ ++ (if call = .saveState then [c.state_] else []) := by
  cases call with
  | saveState => exact ⟨_, rfl, by simp [Canvas.saveState]⟩
  | restoreState => simp [CanvasCall.stateOnly] at hs
  | setPosition x y => exact ⟨_, rfl, by simp [Canvas.setPosition]⟩
  | setBlendMode b => exact ⟨_, rfl, by simp [Canvas.setBlendMode]⟩
  | setColor col => exact ⟨_, rfl, by simp [Canvas.setColor]⟩
  | setPaletteOverride i => exact ⟨_, rfl, by simp [Canvas.setPaletteOverride]⟩
  | setClampBounds x y width height =>
    simp only [CanvasCall.stateOnly, Bool.and_eq_true, decide_eq_true_eq] at hs
    refine ⟨{ c with state_ := { c.state_ with clamp :=
      { left := intToFloat (c.state_.x + x), top := intToFloat (c.state_.y + y),
        right := roundToFloat (intToFloat (c.state_.x + x) + intToFloat width),
        bottom := roundToFloat (intToFloat (c.state_.y + y) + intToFloat height) } } }, ?_, ?_⟩
    · cases debug <;>
        simp [CanvasCall.run, Canvas.setClampBounds, VISAGE_ASSERT, debugAssert, Exec.bind,
          hs.1, hs.2]
    · simp
  | setClampBoundsTo b => exact ⟨_, rfl, by simp [Canvas.setClampBoundsTo]⟩
  | moveClampBounds dx dy => exact ⟨_, rfl, by simp [Canvas.moveClampBounds]⟩

/-- A sequence of state-only calls returns with as many states added on top
of the saved ones as it holds `saveState` calls. -/
theorem runCanvas_stateOnly (debug : Bool) :
    ∀ (body : List CanvasCall) (c : Canvas),
      (∀ call, call ∈ body → call.stateOnly = true) →
      ∃ c1 extra, runCanvas debug c body = .ok c1 ∧
        c1.state_memory_ = c.state_memory_ ++ extra ∧ extra.length = saveCount body := by
  intro body
  induction body with
  | nil =>
    intro c _
    exact ⟨c, [], rfl, by simp, rfl⟩
  | cons call rest ih =>
    intro c hb
    obtain ⟨c1, hrun, hmem⟩ := CanvasCall.run_stateOnly debug c call
      (hb call (List.mem_cons_self call rest))
    obtain ⟨c2, extra, hrun2, hmem2, hlen⟩ := ih c1
      (fun x hx => hb x (List.mem_cons_of_mem call hx))
    refine ⟨c2, (if call = .saveState then [c.state_] else []) ++ extra, ?_, ?_, ?_⟩
    · rw [runCanvas_cons_ok debug c c1 call rest hrun]; exact hrun2
    · rw [hmem2, hmem, List.append_assoc]
    · unfold saveCount at hlen ⊢
      rw [List.length_append, hlen, List.count_cons]
      by_cases hsv : call = .saveState
      · subst hsv; simp; omega
      · simp [hsv]

/-- Popping: with `extra` on top of `saved` on top of `below`, one more
`restoreState` than `extra` is long ends in state `saved` over `below`. -/
theorem runCanvas_restores (debug : Bool) (below : List State) (saved : State) :
    ∀ (n : Nat) (extra : List State) (cur : State), extra.length = n →
      runCanvas debug { state_ := cur, state_memory_ := below ++ [saved] ++ extra }
        (List.replicate (n + 1) .restoreState)
        = .ok { state_ := saved, state_memory_ := below } := by
  intro n
  induction n with
  | zero =>
    intro extra cur hlen
    have he : extra = [] := List.length_eq_zero.mp hlen
    subst he
    simp [runCanvas, CanvasCall.run, Canvas.restoreState, Exec.bind]
  | succ n ih =>
    intro extra cur hlen
    rcases List.eq_nil_or_concat extra with he | ⟨front, top, he⟩
    · subst he; simp at hlen
    · rw [List.concat_eq_append] at he
      subst he
      have hlen2 : front.length = n := by
        simp at hlen
        exact hlen
      have hstep : CanvasCall.restoreState.run debug
          { state_ := cur, state_memory_ := below ++ [saved] ++ (front ++ [top]) }
          = .ok { state_ := top, state_memory_ := below ++ [saved] ++ front } := by
        simp only [CanvasCall.run, Canvas.restoreState]
        rw [← List.append_assoc, List.getLast?_concat, List.dropLast_concat]
      rw [List.replicate_succ, runCanvas_cons_ok debug _ _ _ _ hstep]
      exact ih front top hlen2

/-- C3. For every `N ≥ 1`, every current state and every stack of saved
states: a first `saveState`, then any sequence of state-only calls
(`setPosition`, `setColor`, `setBlendMode`, `setPaletteOverride`, the
`setClampBounds` overloads with their assertions met, `moveClampBounds`) that
holds the other `N - 1` `saveState` calls, then `N` `restoreState` calls, all
return, and the canvas ends with the current state (x, y, palette override,
color, clamp, blend mode, current region) it had at the first save and the
stack of saved states it had before it. -/
theorem save_restore_round_trip (debug : Bool) (N : Nat) (c : Canvas)
    (body : List CanvasCall)
    (hbody : ∀ call, call ∈ body → call.stateOnly = true)
    (hN : saveCount body + 1 = N) :
    runCanvas debug c (CanvasCall.saveState :: body ++ List.replicate N .restoreState)
      = .ok c := by
  have hsave : CanvasCall.saveState.run debug c = .ok c.saveState := rfl
  obtain ⟨c1, extra, hrun, hmem, hlen⟩ := runCanvas_stateOnly debug body c.saveState hbody
  rw [List.cons_append, runCanvas_cons_ok debug c c.saveState _ _ hsave,
    runCanvas_append_ok debug c.saveState c1 body _ hrun, ← hN, ← hlen]
  have hc1 : c1 = ⟨c1.state_, c.state_memory_ ++ [c.state_] ++ extra⟩ := by
    cases c1
    simp only [Canvas.saveState] at hmem
    simp only [Canvas.mk.injEq, true_and]
    exact hmem
  rw [hc1]
  exact runCanvas_restores debug c.state_memory_ c.state_ extra.length extra c1.state_ rfl

/-- C3, at a concrete run with `N = 2`: a canvas in the middle of drawing, a
body with one further `saveState` among mutations of position, colour, blend
mode, clip and palette override. -/
theorem save_restore_round_trip_witness :
    saveCount sampleBody + 1 = 2 ∧
    runCanvas true sampleCanvas
      (CanvasCall.saveState :: sampleBody ++ List.replicate 2 .restoreState)
      = .ok sampleCanvas :=
  ⟨by decide,
    save_restore_round_trip true 2 sampleCanvas sampleBody (by decide) (by decide)⟩

theorem restoreState_after_save (c : Canvas) (cur : State) :
    Canvas.restoreState { state_ := cur, state_memory_ := c.state_memory_ ++ [c.state_] }
      = .ok c := by
  simp only [Canvas.restoreState, List.getLast?_concat, List.dropLast_concat]

theorem setClampBounds_ok (debug : Bool) (c : Canvas) (x y width height : Int)
    (hw : 0 ≤ width) (hh : 0 ≤ height) :
    c.setClampBounds debug x y width height = .ok { c with state_ := { c.state_ with clamp :=
      { left := intToFloat (c.state_.x + x), top := intToFloat (c.state_.y + y),
        right := roundToFloat (intToFloat (c.state_.x + x) + intToFloat width),
        bottom := roundToFloat (intToFloat (c.state_.y + y) + intToFloat height) } } } := by
  cases debug <;>
    simp [Canvas.setClampBounds, VISAGE_ASSERT, debugAssert, Exec.bind, hw, hh]

/-- The clip rectangle that `beginRegion` leaves, for a region of width and
height at least `0`: both sizes go through the conversion to `float`. -/
theorem beginRegion_clamp (debug : Bool) (c : Canvas) (h : Heap) (region : Nat)
    (hw : 0 ≤ (h region).width_) (hh : 0 ≤ (h region).height_) :
    (Canvas.beginRegion debug c h region).returned.map (fun p => p.1.state_.clamp)
      = some { left := intToFloat (0 + 0), top := intToFloat (0 + 0),
               right := roundToFloat (intToFloat (0 + 0) + intToFloat (h region).width_),
               bottom := roundToFloat (intToFloat (0 + 0) + intToFloat (h region).height_) } := by
  have hw1 : 0 ≤ ((h.set region (h region).clear) region).width_ := by
    rw [Heap.set_same]; exact hw
  have hh1 : 0 ≤ ((h.set region (h region).clear) region).height_ := by
    rw [Heap.set_same]; exact hh
  have hwe : ((h.set region (h region).clear) region).width_ = (h region).width_ := by
    rw [Heap.set_same]; rfl
  have hhe : ((h.set region (h region).clear) region).height_ = (h region).height_ := by
    rw [Heap.set_same]; rfl
  unfold Canvas.beginRegion
  dsimp only
  rw [setClampBounds_ok debug _ 0 0 _ _ hw1 hh1, hwe, hhe]
  rfl

/-- C8 (as stated, refuted). Region `5` has width `16777217 = 2^24 + 1` and
height `1`, both at least `0`. After `beginRegion` the right edge of the clip
rectangle is `16777216`, not the width of the region: the `int` width is
converted to `float`, which has 24 significant bits. -/
theorem beginRegion_clip_rounds_wide_region :
    (0 ≤ (heapWide 5).width_ ∧ 0 ≤ (heapWide 5).height_) ∧
    (heapWide 5).width_ = 16777217 ∧
    (Canvas.beginRegion true sampleCanvas heapWide 5).returned.map
      (fun p => p.1.state_.clamp) = some { left := 0, top := 0, right := 16777216, bottom := 1 } := by
  refine ⟨by decide, by decide, ?_⟩
  rw [beginRegion_clamp true sampleCanvas heapWide 5 (by decide) (by decide)]
  have hwide : (heapWide 5).width_ = 16777217 := by decide
  have hhigh : (heapWide 5).height_ = 1 := by decide
  have h0 : intToFloat (0 + 0) = 0 := by
    simpa using intToFloat_of_small 0 (by norm_num)
  have h1 : intToFloat 1 = 1 := by
    simpa using intToFloat_of_small 1 (by norm_num)
  have hr1 : roundToFloat (1 : ℚ) = 1 := by
    simpa using roundToFloat_intCast 1 (by norm_num)
  have hr : roundToFloat (16777216 : ℚ) = 16777216 := by
    simpa using roundToFloat_intCast 16777216 (by norm_num)
  have hw : intToFloat 16777217 = 16777216 := by
    unfold intToFloat
    rw [roundToFloat_at _ 24 8388608 (by norm_num [abs_of_pos]) (by norm_num [abs_of_pos])
      (by norm_num) (by norm_num) (by norm_num)]
    norm_num
  rw [hwide, hhigh, h0, h1, hw]
  norm_num [hr, hr1]

/-- C8 (amended). For every canvas, whatever its position offset and clip,
and every region whose width and height are at least `0` and at most
`2^24 = 16777216` (every such `int` is a `float` value), `beginRegion(region)`
returns, and afterwards the draw position is `(0, 0)`, the clip rectangle is
exactly left `0`, top `0`, right `region.width`, bottom `region.height`, the
color is the value-initialised one, the blend mode is `Alpha`, the current
region is `region`, the state from before the call lies on top of the saved
states, and the matching `endRegion` returns with exactly the state and saved
states from before `beginRegion`. -/
theorem beginRegion_resets_draw_state (debug : Bool) (c : Canvas) (h : Heap) (region : Nat)
    (hw : 0 ≤ (h region).width_) (hh : 0 ≤ (h region).height_)
    (hwmax : (h region).width_ ≤ 2 ^ 24) (hhmax : (h region).height_ ≤ 2 ^ 24) :
    ∃ c1 h1, Canvas.beginRegion debug c h region = .ok (c1, h1) ∧
      c1.state_.x = 0 ∧ c1.state_.y = 0 ∧
      c1.state_.clamp = { left := 0, top := 0, right := (h region).width_,
                          bottom := (h region).height_ } ∧
      c1.state_.color = {} ∧
      c1.state_.blend_mode = BlendMode.Alpha ∧
      c1.state_.current_region = some region ∧
      c1.state_memory_ = c.state_memory_ ++ [c.state_] ∧
      c1.endRegion = .ok c := by
  have hw1 : 0 ≤ ((h.set region (h region).clear) region).width_ := by
    rw [Heap.set_same]; exact hw
  have hh1 : 0 ≤ ((h.set region (h region).clear) region).height_ := by
    rw [Heap.set_same]; exact hh
  have hwe : ((h.set region (h region).clear) region).width_ = (h region).width_ := by
    rw [Heap.set_same]; rfl
  have hhe : ((h.set region (h region).clear) region).height_ = (h region).height_ := by
    rw [Heap.set_same]; rfl
  have h0 : intToFloat (0 + 0) = 0 := by
    simpa using intToFloat_of_small 0 (by norm_num)
  have hwf : intToFloat (h region).width_ = (h region).width_ :=
    intToFloat_of_small _ (by rw [abs_of_nonneg hw]; exact hwmax)
  have hhf : intToFloat (h region).height_ = (h region).height_ :=
    intToFloat_of_small _ (by rw [abs_of_nonneg hh]; exact hhmax)
  have hwr : roundToFloat (0 + ((h region).width_ : ℚ)) = (h region).width_ := by
    rw [zero_add]
    exact roundToFloat_intCast _ (by rw [abs_of_nonneg hw]; exact hwmax)
  have hhr : roundToFloat (0 + ((h region).height_ : ℚ)) = (h region).height_ := by
    rw [zero_add]
    exact roundToFloat_intCast _ (by rw [abs_of_nonneg hh]; exact hhmax)
  refine ⟨?c1, ?h1, ?hrun, ?hrest⟩
  case hrun =>
    unfold Canvas.beginRegion
    dsimp only
    rw [setClampBounds_ok debug _ 0 0 _ _ hw1 hh1]
    simp only [Exec.withHeap, Exec.bind]
    exact rfl
  case hrest =>
    refine ⟨rfl, rfl, ?_, rfl, rfl, rfl, rfl, ?_⟩
    · show ({ left := intToFloat (0 + 0), top := intToFloat (0 + 0),
              right := roundToFloat (intToFloat (0 + 0) +
                intToFloat ((h.set region (h region).clear) region).width_),
              bottom := roundToFloat (intToFloat (0 + 0) +
                intToFloat ((h.set region (h region).clear) region).height_) } : ClampBounds) = _
      rw [hwe, hhe, h0, hwf, hhf, hwr, hhr]
    · exact restoreState_after_save c _

/-- C8 (amended), at a concrete canvas and heap: the canvas is at offset
`(3, 4)` with a clip and blend mode of its own; region `5` is 100 by 50. -/
theorem beginRegion_resets_draw_state_witness :
    (0 ≤ (heapSized 5).width_ ∧ 0 ≤ (heapSized 5).height_ ∧
      (heapSized 5).width_ ≤ 2 ^ 24 ∧ (heapSized 5).height_ ≤ 2 ^ 24) ∧
    ∃ c1 h1, Canvas.beginRegion true sampleCanvas heapSized 5 = .ok (c1, h1) ∧
      c1.state_.x = 0 ∧ c1.state_.y = 0 ∧
      c1.state_.clamp = { left := 0, top := 0, right := (heapSized 5).width_,
                          bottom := (heapSized 5).height_ } ∧
      c1.state_.color = {} ∧
      c1.state_.blend_mode = BlendMode.Alpha ∧
      c1.state_.current_region = some 5 ∧
      c1.state_memory_ = sampleCanvas.state_memory_ ++ [sampleCanvas.state_] ∧
      c1.endRegion = .ok sampleCanvas :=
  ⟨⟨by decide, by decide, by decide, by decide⟩,
    beginRegion_resets_draw_state true sampleCanvas heapSized 5 (by decide) (by decide)
      (by decide) (by decide)⟩

/-- C10 (as stated, refuted). On a canvas with no saved state, `restoreState`
and `endRegion` do not end in an assertion failure: no assertion guards the
read of `back()`, the calls run into undefined behaviour. -/
theorem restoreState_empty_stack_not_asserted :
    (({} : Canvas).state_memory_ = []) ∧
    (Canvas.restoreState {}).trapped = none ∧
    (Canvas.endRegion {}).trapped = none ∧
    (Canvas.restoreState {}).returned = none ∧
    (Canvas.endRegion {}).returned = none :=
  ⟨rfl, rfl, rfl, rfl, rfl⟩

/-- C10 (amended). `restoreState`, and `endRegion` which calls it, carry no
assertion: invoked when the stack of saved states is empty they read `back()`
of an empty vector, which is undefined behaviour; no assertion failure is
raised, in any build, and nothing is promised about the current state. -/
theorem restoreState_empty_stack_undefined (c : Canvas) (hempty : c.state_memory_ = []) :
    c.restoreState = .undefinedBehaviour ∧
    c.endRegion = .undefinedBehaviour ∧
    c.restoreState.trapped = none ∧
    c.endRegion.trapped = none := by
  have h1 : c.restoreState = .undefinedBehaviour := by
    simp [Canvas.restoreState, hempty]
  refine ⟨h1, h1, ?_, ?_⟩
  · rw [h1]; rfl
  · show c.restoreState.trapped = none
    rw [h1]; rfl

/-- C10 (amended), at a canvas in the middle of drawing whose stack has been
emptied. -/
theorem restoreState_empty_stack_undefined_witness :
    ({ sampleCanvas with state_memory_ := [] } : Canvas).state_memory_ = [] ∧
    ({ sampleCanvas with state_memory_ := [] } : Canvas).restoreState = .undefinedBehaviour :=
  ⟨rfl, (restoreState_empty_stack_undefined { sampleCanvas with state_memory_ := [] } rfl).1⟩

/-! ## Claims on region overlap and bounds -/

/-- C11 (as stated, refuted). A region of width and height `0` at `(5, 5)` and
a 10 by 10 region at the origin both have non-negative width and height;
`overlaps` returns true for them in either order, although the rectangle of
the first is empty: `max(5, 0) < min(5 + 0, 0 + 10)` fails. -/
theorem overlaps_true_for_empty_rectangle :
    (0 ≤ regionPoint.width_ ∧ 0 ≤ regionPoint.height_ ∧
      0 ≤ regionSquare.width_ ∧ 0 ≤ regionSquare.height_) ∧
    regionPoint.overlaps regionSquare = true ∧
    regionSquare.overlaps regionPoint = true ∧
    ¬(max regionPoint.x_ regionSquare.x_ <
        min (regionPoint.x_ + regionPoint.width_) (regionSquare.x_ + regionSquare.width_)) := by
  decide

/-- C11 (amended). For every two regions `a` and `b` with positive width and
height (coordinates as exact integers), `a.overlaps(b)` returns true if and
only if `max(a.x, b.x) < min(a.x + a.width, b.x + b.width)` and
`max(a.y, b.y) < min(a.y + a.height, b.y + b.height)`, and that is if and only
if the rectangles `[x, x + width) × [y, y + height)` of `a` and `b` have a
common point. -/
theorem overlaps_iff_rectangles_intersect (a b : Region)
    (haw : 0 < a.width_) (hah : 0 < a.height_) (hbw : 0 < b.width_) (hbh : 0 < b.height_) :
    (a.overlaps b = true ↔
      max a.x_ b.x_ < min (a.x_ + a.width_) (b.x_ + b.width_) ∧
      max a.y_ b.y_ < min (a.y_ + a.height_) (b.y_ + b.height_)) ∧
    (a.overlaps b = true ↔ ∃ px py, a.covers px py ∧ b.covers px py) := by
  have hcode : a.overlaps b = true ↔
      (a.x_ < b.x_ + b.width_ ∧ a.x_ + a.width_ > b.x_) ∧
      (a.y_ < b.y_ + b.height_ ∧ a.y_ + a.height_ > b.y_) := by
    simp only [Region.overlaps, Bool.and_eq_true, decide_eq_true_eq]
    tauto
  constructor
  · rw [hcode, max_lt_iff, lt_min_iff, lt_min_iff, max_lt_iff, lt_min_iff, lt_min_iff]
    constructor
    · rintro ⟨⟨h1, h2⟩, h3, h4⟩
      exact ⟨⟨⟨by omega, h1⟩, by omega, by omega⟩, ⟨by omega, h3⟩, by omega, by omega⟩
    · rintro ⟨⟨⟨_, h1⟩, h2, _⟩, ⟨_, h3⟩, h4, _⟩
      exact ⟨⟨h1, by omega⟩, h3, by omega⟩
  · rw [hcode]
    constructor
    · rintro ⟨⟨h1, h2⟩, h3, h4⟩
      refine ⟨max a.x_ b.x_, max a.y_ b.y_, ?_, ?_⟩
      · refine ⟨le_max_left _ _, ?_, le_max_left _ _, ?_⟩
        · exact max_lt (by omega) (by omega)
        · exact max_lt (by omega) (by omega)
      · refine ⟨le_max_right _ _, ?_, le_max_right _ _, ?_⟩
        · exact max_lt (by omega) (by omega)
        · exact max_lt (by omega) (by omega)
    · rintro ⟨px, py, ⟨h1, h2, h3, h4⟩, h5, h6, h7, h8⟩
      exact ⟨⟨by omega, by omega⟩, by omega, by omega⟩

/-- C11 (amended), at two concrete regions: a 10 by 10 region at the origin
and the same region moved to `(5, 5)`. -/
theorem overlaps_iff_rectangles_intersect_witness :
    (0 < regionSquare.width_ ∧ 0 < regionSquare.height_) ∧
    (regionSquare.overlaps { regionSquare with x_ := 5, y_ := 5 } = true ↔
      ∃ px py, regionSquare.covers px py ∧
        ({ regionSquare with x_ := 5, y_ := 5 } : Region).covers px py) :=
  ⟨by decide,
    (overlaps_iff_rectangles_intersect regionSquare { regionSquare with x_ := 5, y_ := 5 }
      (by decide) (by decide) (by decide) (by decide)).2⟩

theorem setBoundsAll_concat (r : Region) (calls : List BoundsArgs) (a : BoundsArgs) :
    r.setBoundsAll (calls ++ [a]) =
      ((r.setBoundsAll calls).setBounds a.x a.y a.width a.height).1 := by
  simp [Region.setBoundsAll, List.foldl_append]

theorem setBoundsAll_nonneg (calls : List BoundsArgs) :
    ∀ r : Region, 0 ≤ r.width_ → 0 ≤ r.height_ →
      (∀ a, a ∈ calls → 0 ≤ a.width ∧ 0 ≤ a.height) →
      0 ≤ (r.setBoundsAll calls).width_ ∧ 0 ≤ (r.setBoundsAll calls).height_ := by
  induction calls with
  | nil =>
    intro r hw hh _
    exact ⟨hw, hh⟩
  | cons a rest ih =>
    intro r _ _ hall
    have ha := hall a (List.mem_cons_self a rest)
    exact ih (r.setBounds a.x a.y a.width a.height).1 ha.1 ha.2
      (fun b hb => hall b (List.mem_cons_of_mem a hb))

/-- C12 (as stated, refuted). One `setBounds(0, 0, -1, -1)` call on a
default-constructed region leaves it with width `-1` and height `-1`. -/
theorem setBounds_stores_negative_size :
    ((({} : Region).setBoundsAll [⟨0, 0, -1, -1⟩]).width_,
      (({} : Region).setBoundsAll [⟨0, 0, -1, -1⟩]).height_) = (-1, -1) := by
  decide

/-- C12 (amended). `setBounds` stores its arguments unchecked: after a
sequence of calls that ends with `setBounds(x, y, w, h)` the region has
position `(x, y)`, width `w` and height `h`. So, starting from a
default-constructed region, after every sequence of `setBounds` calls whose
width and height arguments are all at least `0`, the width and height of the
region are at least `0`. -/
theorem setBounds_nonnegative_arguments (calls : List BoundsArgs)
    (hall : ∀ a, a ∈ calls → 0 ≤ a.width ∧ 0 ≤ a.height) :
    (0 ≤ (({} : Region).setBoundsAll calls).width_ ∧
      0 ≤ (({} : Region).setBoundsAll calls).height_) ∧
    ∀ (r : Region) (before : List BoundsArgs) (a : BoundsArgs),
      ((r.setBoundsAll (before ++ [a])).x_, (r.setBoundsAll (before ++ [a])).y_,
        (r.setBoundsAll (before ++ [a])).width_, (r.setBoundsAll (before ++ [a])).height_)
        = (a.x, a.y, a.width, a.height) := by
  refine ⟨setBoundsAll_nonneg calls {} (le_refl _) (le_refl _) hall, ?_⟩
  intro r before a
  rw [setBoundsAll_concat]
  rfl

/-- C12 (amended), at a concrete sequence: a region is set to 10 by 20, then
to 0 by 5. -/
theorem setBounds_nonnegative_arguments_witness :
    (∀ a, a ∈ [(⟨1, 2, 10, 20⟩ : BoundsArgs), ⟨3, 4, 0, 5⟩] → 0 ≤ a.width ∧ 0 ≤ a.height) ∧
    (0 ≤ (({} : Region).setBoundsAll [⟨1, 2, 10, 20⟩, ⟨3, 4, 0, 5⟩]).width_ ∧
      0 ≤ (({} : Region).setBoundsAll [⟨1, 2, 10, 20⟩, ⟨3, 4, 0, 5⟩]).height_) :=
  ⟨by decide,
    (setBounds_nonnegative_arguments [⟨1, 2, 10, 20⟩, ⟨3, 4, 0, 5⟩] (by decide)).1⟩

/-! ## Claims on shape batching and drawing calls -/

theorem flattenBatches_concat (batches : List SubmitBatch) (b : SubmitBatch) :
    flattenBatches (batches ++ [b]) = flattenBatches batches ++ b.shapes := by
  simp [flattenBatches]

theorem batches_concat (submitted : List Shape) (shape : Shape) :
    ShapeBatcher.batches (submitted ++ [shape]) =
      ShapeBatcher.addShape (ShapeBatcher.batches submitted) shape := by
  simp [ShapeBatcher.batches, List.foldl_append]

/-- One more submission keeps the batches the maximal runs of what has been
submitted. -/
theorem MaximalRuns.after_addShape {submitted : List Shape} {batches : List SubmitBatch}
    (hm : MaximalRuns submitted batches) (shape : Shape) :
    MaximalRuns (submitted ++ [shape]) (ShapeBatcher.addShape batches shape) := by
  have hnew : SubmitBatch.isRun ⟨shape.blend_mode, shape.category, [shape]⟩ := by
    refine ⟨by simp, ?_⟩
    intro s hs
    rw [List.mem_singleton] at hs
    subst hs
    exact ⟨rfl, rfl⟩
  rcases List.eq_nil_or_concat batches with he | ⟨front, last, he⟩
  · subst he
    have hsub : submitted = [] := by
      rw [← hm.flat]; rfl
    subst hsub
    refine ⟨rfl, ?_, List.chain'_singleton _⟩
    intro b hb
    have hb1 : b = ⟨shape.blend_mode, shape.category, [shape]⟩ := by
      simpa [ShapeBatcher.addShape] using hb
    rw [hb1]; exact hnew
  · rw [List.concat_eq_append] at he
    subst he
    have hlast : last.isRun := hm.runs last (List.mem_append_right _ (List.mem_singleton_self _))
    obtain ⟨hfront, _, hlink⟩ := List.chain'_append.mp hm.split
    by_cases hk : last.blend_mode = shape.blend_mode ∧ last.category = shape.category
    · have hadd : ShapeBatcher.addShape (front ++ [last]) shape =
          front ++ [{ last with shapes := last.shapes ++ [shape] }] := by
        simp [ShapeBatcher.addShape, hk]
      rw [hadd]
      refine ⟨?_, ?_, ?_⟩
      · rw [flattenBatches_concat, ← hm.flat, flattenBatches_concat, List.append_assoc]
      · intro b hb
        rcases List.mem_append.mp hb with h1 | h1
        · exact hm.runs b (List.mem_append_left _ h1)
        · rw [List.mem_singleton] at h1
          subst h1
          refine ⟨by simp, ?_⟩
          intro s hs
          rcases List.mem_append.mp hs with h2 | h2
          · exact hlast.2 s h2
          · rw [List.mem_singleton] at h2
            subst h2
            exact ⟨hk.1.symm, hk.2.symm⟩
      · refine List.Chain'.append hfront (List.chain'_singleton _) ?_
        intro x hx y hy
        simp only [List.head?_cons, Option.mem_def, Option.some.injEq] at hy
        subst hy
        exact hlink x hx last (by simp)
    · have hadd : ShapeBatcher.addShape (front ++ [last]) shape =
          (front ++ [last]) ++ [⟨shape.blend_mode, shape.category, [shape]⟩] := by
        simp [ShapeBatcher.addShape, hk]
      rw [hadd]
      refine ⟨?_, ?_, ?_⟩
      · rw [flattenBatches_concat, hm.flat]
      · intro b hb
        rcases List.mem_append.mp hb with h1 | h1
        · exact hm.runs b h1
        · rw [List.mem_singleton] at h1
          subst h1
          exact hnew
      · refine List.Chain'.append hm.split (List.chain'_singleton _) ?_
        intro x hx y hy
        simp only [List.getLast?_concat, Option.mem_def, Option.some.injEq] at hx
        simp only [List.head?_cons, Option.mem_def, Option.some.injEq] at hy
        subst hx
        subst hy
        exact hk

theorem batches_maximalRuns (submitted : List Shape) :
    MaximalRuns submitted (ShapeBatcher.batches submitted) := by
  induction submitted using List.reverseRecOn with
  | nil => exact ⟨rfl, fun b hb => absurd hb (List.not_mem_nil b), List.chain'_nil⟩
  | append_singleton l a ih =>
    rw [batches_concat]
    exact ih.after_addShape a

/-- C13. `Canvas::addShape` appends the primitive, with the blend mode of the
draw state, to the submissions of the current region. For every sequence of
submissions of a region, its batches put end to end give back the sequence
in submission order, every batch is a non-empty run of primitives with the
blend mode and category of the batch, and neighbouring batches differ in
blend mode or category, so the batches are the maximal runs. The drawing
`fill`, `fill`, `circle` under `Alpha`, then `fill` under `Additive` yields
3 batches of sizes `[2, 1, 1]`. -/
theorem shape_batches_are_maximal_runs (r : Region) (c : Canvas) (h : Heap) (shape : Shape) :
    (∀ region, c.state_.current_region = some region →
      (c.addShape h shape).returned.map (fun p => (p.2 region).shape_batcher_)
        = some ((h region).shape_batcher_ ++ [{ shape with blend_mode := c.state_.blend_mode }])) ∧
    flattenBatches (ShapeBatcher.batches r.shape_batcher_) = r.shape_batcher_ ∧
    (∀ b, b ∈ ShapeBatcher.batches r.shape_batcher_ →
      b.shapes ≠ [] ∧
      ∀ s, s ∈ b.shapes → s.blend_mode = b.blend_mode ∧ s.category = b.category) ∧
    List.Chain' (fun a b => ¬(a.blend_mode = b.blend_mode ∧ a.category = b.category))
      (ShapeBatcher.batches r.shape_batcher_) ∧
    sampleDrawing.returned.map (fun p =>
      ((p.2 5).shape_batcher_.map (fun s => (s.category, s.blend_mode)),
        (p.2 5).numSubmitBatches,
        (ShapeBatcher.batches (p.2 5).shape_batcher_).map (fun b => b.shapes.length)))
      = some ([(ShapeKind.Fill.tag, BlendMode.Alpha), (ShapeKind.Fill.tag, BlendMode.Alpha),
               (ShapeKind.Circle.tag, BlendMode.Alpha), (ShapeKind.Fill.tag, BlendMode.Additive)],
              3, [2, 1, 1]) := by
  have hm := batches_maximalRuns r.shape_batcher_
  refine ⟨?_, hm.flat, hm.runs, hm.split, rfl⟩
  intro region hcur
  simp [Canvas.addShape, hcur, Exec.returned, Heap.set]

/-- C14. For every canvas with a current region and every
`(x, y, width, height, rounding, thickness)` (arithmetic taken exactly),
`roundedRectangleBorder` returns with the canvas exactly as before the call
(current draw state and stack of saved states), exactly four shapes have been
appended to the current region, each with a clip rectangle that does not
reach beyond the clip rectangle in force before the call, and no other region
has changed. -/
theorem roundedRectangleBorder_leaks_no_state (c : Canvas) (h : Heap) (region : Nat)
    (x y width height rounding thickness : ℚ)
    (hcur : c.state_.current_region = some region) :
    ∃ h1 s1 s2 s3 s4,
      c.roundedRectangleBorder h x y width height rounding thickness = .ok (c, h1) ∧
      (h1 region).shape_batcher_ = (h region).shape_batcher_ ++ [s1, s2, s3, s4] ∧
      (s1.clamp.within c.state_.clamp ∧ s2.clamp.within c.state_.clamp ∧
        s3.clamp.within c.state_.clamp ∧ s4.clamp.within c.state_.clamp) ∧
      ∀ r, r ≠ region → h1 r = h r := by
  refine ⟨?h1, ?s1, ?s2, ?s3, ?s4, ?hrun, ?hshapes, ?hclamp, ?hother⟩
  case hrun =>
    simp only [Canvas.roundedRectangleBorder, Canvas.fullRoundedRectangleBorder,
      Canvas.addShape, Canvas.assignClamp, Canvas.saveState, hcur, Exec.bind,
      Canvas.restoreState, List.getLast?_concat, List.dropLast_concat, Exec.withHeap]
    exact rfl
  case hshapes =>
    simp only [Heap.set, if_true, List.append_assoc, List.singleton_append]
    exact rfl
  case hclamp =>
    simp only [ClampBounds.within]
    refine ⟨⟨?_, ?_, ?_, ?_⟩, ⟨?_, ?_, ?_, ?_⟩, ⟨?_, ?_, ?_, ?_⟩, ⟨?_, ?_, ?_, ?_⟩⟩ <;>
      first
        | exact le_refl _
        | exact min_le_left _ _
        | exact le_max_left _ _
  case hother =>
    intro r hr
    simp [Heap.set, hr]

/-- C14, at a concrete canvas: the current region is region `5`, and a border
is drawn at `(1, 2)` with size 30 by 20, rounding 4 and thickness 2. -/
theorem roundedRectangleBorder_leaks_no_state_witness :
    canvasOnRegion.state_.current_region = some 5 ∧
    ∃ h1 s1 s2 s3 s4,
      canvasOnRegion.roundedRectangleBorder heapSized 1 2 30 20 4 2 = .ok (canvasOnRegion, h1) ∧
      (h1 5).shape_batcher_ = (heapSized 5).shape_batcher_ ++ [s1, s2, s3, s4] ∧
      (s1.clamp.within canvasOnRegion.state_.clamp ∧
        s2.clamp.within canvasOnRegion.state_.clamp ∧
        s3.clamp.within canvasOnRegion.state_.clamp ∧
        s4.clamp.within canvasOnRegion.state_.clamp) ∧
      ∀ r, r ≠ 5 → h1 r = heapSized r :=
  ⟨rfl, roundedRectangleBorder_leaks_no_state canvasOnRegion heapSized 5 1 2 30 20 4 2 rfl⟩

/-- In the branch `rounding <= 1.0f` the draw position enters twice: once in
the arguments that `roundedRectangleShadow` passes on and once more inside
`rectangleShadow`. -/
theorem roundedRectangleShadow_square_branch (c : Canvas) (h : Heap) (region : Nat)
    (x y width height rounding blur_radius : ℚ)
    (hcur : c.state_.current_region = some region)
    (hblur : 0 < blur_radius) (hround : rounding ≤ 1) :
    (c.roundedRectangleShadow h x y width height rounding blur_radius).returned.map
      (fun p => placements (p.2 region))
      = some (placements (h region) ++
          [(c.state_.x + (c.state_.x + x + -blur_radius * (1 / 2)),
            c.state_.y + (c.state_.y + y + -blur_radius * (1 / 2)),
            width + blur_radius, height + blur_radius)]) := by
  simp [Canvas.roundedRectangleShadow, Canvas.rectangleShadow, Canvas.addShape, hcur,
    not_le.mpr hblur, hblur, hround, Exec.returned, placements, Heap.set]

/-- In the branch `rounding > 1.0f` the shadow is placed at the draw position
plus `(x, y)` minus half the blur radius. -/
theorem roundedRectangleShadow_rounded_branch (c : Canvas) (h : Heap) (region : Nat)
    (x y width height rounding blur_radius : ℚ)
    (hcur : c.state_.current_region = some region)
    (hblur : 0 < blur_radius) (hround : 1 < rounding) :
    (c.roundedRectangleShadow h x y width height rounding blur_radius).returned.map
      (fun p => placements (p.2 region))
      = some (placements (h region) ++
          [(c.state_.x + x + -blur_radius * (1 / 2),
            c.state_.y + y + -blur_radius * (1 / 2),
            width + blur_radius, height + blur_radius)]) := by
  simp [Canvas.roundedRectangleShadow, Canvas.addShape, hcur,
    not_le.mpr hblur, not_le.mpr hround, Exec.returned, placements, Heap.set]

/-- C15 (code evaluated where it departs from the claim). The canvas is at
draw position `(3, 4)`; the shadow is requested at `(10, 20)` with size 30 by
40 and blur radius 2, so the claim places a 32 by 42 shape at
`(3 + 10 - 1, 4 + 20 - 1) = (12, 23)`. With rounding 2 the code does that;
with rounding 1 (the branch through `rectangleShadow`) it places the shape at
`(15, 27)`, the draw position added twice; with blur radius 0 it adds no
shape in either branch. -/
theorem roundedRectangleShadow_offsets_twice :
    (canvasOffset.roundedRectangleShadow heapSized 10 20 30 40 2 2).returned.map
      (fun p => placements (p.2 5)) = some [(12, 23, 32, 42)] ∧
    (canvasOffset.roundedRectangleShadow heapSized 10 20 30 40 1 2).returned.map
      (fun p => placements (p.2 5)) = some [(15, 27, 32, 42)] ∧
    (canvasOffset.roundedRectangleShadow heapSized 10 20 30 40 1 0).returned.map
      (fun p => placements (p.2 5)) = some [] ∧
    (canvasOffset.roundedRectangleShadow heapSized 10 20 30 40 2 0).returned.map
      (fun p => placements (p.2 5)) = some [] := by
  refine ⟨?_, ?_, by decide, by decide⟩
  · rw [roundedRectangleShadow_rounded_branch canvasOffset heapSized 5 10 20 30 40 2 2 rfl
      (by norm_num) (by norm_num)]
    norm_num [placements, heapSized, canvasOffset]
  · rw [roundedRectangleShadow_square_branch canvasOffset heapSized 5 10 20 30 40 1 2 rfl
      (by norm_num) (by norm_num)]
    norm_num [placements, heapSized, canvasOffset]

/-- C13, at a concrete region that has received two fills and a circle under
`Alpha` and a fill under `Additive`. -/
theorem shape_batches_are_maximal_runs_witness :
    flattenBatches (ShapeBatcher.batches regionDrawn.shape_batcher_)
      = regionDrawn.shape_batcher_ ∧
    regionDrawn.numSubmitBatches = 3 :=
  ⟨(shape_batches_are_maximal_runs regionDrawn canvasOnRegion heapSized
    { category := ShapeKind.Fill.tag, clamp := {}, color := {}, x := 0, y := 0,
      width := 1, height := 1 }).2.1, by decide⟩

end visage
